import Mathlib

/-!
# flux-start: the local session orchestrator

A shallow embedding of `src/cmd/flux-start.c`: the static `ctx` record, the
subprocess callbacks (`completion_cb`, `state_cb`, `channel_cb`), the kill timer
callback (`killer`), the bootstrap store operations (`pmi_kvs_put`, `pmi_kvs_get`),
the control service handler (`status_cb`), `client_create`,
`start_server_initialize` and `start_session`.

Conventions of the embedding.

* C `int` values are `Int`.  The only arithmetic in the modelled code is
  `rc += 128` on a signal number and `--ctx.count` / `ctx.count++` on a count
  of processes, none of which can leave the range of `int`.
* A `struct client *` is modelled by the record it points to.  The clients of
  one session carry pairwise different ranks, so comparing records agrees with
  comparing pointers on a live-set.
* `zlist_t` is a `List`: `zlist_append` adds at the end, `zlist_remove` removes
  the first node holding the item, `zlist_first`/`zlist_next` walk from the head.
* Calls into libraries that are not part of the file (the reactor, the
  subprocess library, hostlist decoding) are inputs: either fields of `World`
  or the list of events the reactor delivers.
* `log_err_exit` / `log_msg_exit` terminate the program; functions that can
  reach them return `Except Fatal _`.
* Allocation failures of `xzmalloc`, `argz_add` and `flux_cmd_create` are not
  modelled; those of the JSON calls of `status_cb`, which change its response, are
  inputs (`JsonAlloc`).
* A callback that calls into a library returns the calls it made next to its result.
-/

namespace FluxStart

/-! ## Data model -/

/-- Command object built by `client_create`: argument vector, environment and
the names of the extra channels. -/
structure flux_cmd_t where
  argv : List String
  env : List (String × String)
  channels : List String
deriving DecidableEq, Repr

/-- Modelled from the spec: the opaque process handle `flux_subprocess_t` of the
subprocess library (not under src); only the process identifier is kept. -/
structure flux_subprocess_t where
  pid : Int
deriving DecidableEq, Repr

/-- Modelled from the spec: the lifecycle states `flux_subprocess_state_t` of the
subprocess library (not under src).  `state_cb` only tests for
`FLUX_SUBPROCESS_FAILED` and `FLUX_SUBPROCESS_EXITED`. -/
inductive flux_subprocess_state_t where
  | FLUX_SUBPROCESS_INIT
  | FLUX_SUBPROCESS_RUNNING
  | FLUX_SUBPROCESS_EXITED
  | FLUX_SUBPROCESS_FAILED
deriving DecidableEq, Repr

open flux_subprocess_state_t

/-- The record `struct client`: `p` is NULL (`none`) until `client_run` sets it. -/
structure client where
  rank : Int
  p : Option flux_subprocess_t
  cmd : flux_cmd_t
deriving DecidableEq, Repr

/-- The static record `ctx`, restricted to the fields the session logic reads or
writes.  `timer` is the activity of the watcher `ctx.timer` (true = armed);
`h` is the socket path the control service is bound to; `pmi_kvs` is
`ctx.pmi.kvs`.  `killer_timeout` (a `double`) only parametrises the timer. -/
structure Ctx where
  timer : Bool
  clients : List client
  test_size : Int
  count : Int
  exit_rc : Int
  pmi_kvs : List (String × String)
  h : Option String
deriving DecidableEq, Repr

/-- The options read through `optparse_hasopt` / `optparse_get_str` /
`optparse_getopt_next`; an absent option is `none`, `false` or `[]`. -/
structure optparse_t where
  verbose : Bool
  noexec : Bool
  test_hosts : Option String
  broker_opts : List String
  wrap : List String
  trace_pmi_server : Bool
  scratchdir : Option String
  noclique : Bool
deriving DecidableEq, Repr

/-- Ways the program terminates through `log_err_exit` / `log_msg_exit`. -/
inductive Fatal where
  | mkdtemp
  | internal_buffer_overflow
  | usock_service_create
  | pmi_process_mapping_encode
  | hostlist_decode
  | hostlist_size
  | flux_exec
  | pmi_simple_server_kvs_get_complete
  | flux_subprocess_read_line
  | pmi_simple_server_request
  | assertion
deriving DecidableEq, Repr

/-- Results of the library and system calls made while a session is set up.
`flux_local_exec rank cmd` is the handle returned for the call made for `rank`
(`none` = NULL). -/
structure World where
  environ : List (String × String)
  create_scratch_dir : Option String
  usock_service_create : String → Bool
  pmi_process_mapping_encode : Int → Option String
  hostlist_decode : String → Option (List String)
  flux_local_exec : Int → flux_cmd_t → Option flux_subprocess_t

/-- The value of `SIGKILL` from `signal.h`. -/
def SIGKILL : Int := 9

/-- A call `flux_subprocess_kill (p, signum)`. -/
abbrev KillCall := Option flux_subprocess_t × Int

/-- The state a reactor callback runs in: `ctx` and the kill calls made so far. -/
structure Session where
  ctx : Ctx
  kills : List KillCall
deriving DecidableEq, Repr

/-! ## Watcher and list primitives -/

/-- Effect of `flux_watcher_start (ctx.timer)`: the timer is active. -/
def flux_watcher_start (ctx : Ctx) : Ctx := { ctx with timer := true }

/-- Effect of `flux_watcher_stop (ctx.timer)`: the timer is inactive. -/
def flux_watcher_stop (ctx : Ctx) : Ctx := { ctx with timer := false }

/-- Removal of the first node holding `item`; no effect when absent. -/
def zlist_remove (l : List client) (item : client) : List client := l.erase item

/-- Append `item` at the end of the list. -/
def zlist_append (l : List client) (item : client) : List client := l ++ [item]

/-! ## Subprocess callbacks -/

/-- The value of `rc` computed at the top of `completion_cb` from the results of
`flux_subprocess_exit_code (p)` and `flux_subprocess_signaled (p)`. -/
def completion_rc (exit_code signaled : Int) : Int :=
  if exit_code < 0 then
    if signaled ≥ 0 then signaled + 128 else signaled
  else exit_code

/-- The shared tail `if (--ctx.count > 0) start else stop; zlist_remove`. -/
def departure (ctx : Ctx) (cli : client) : Ctx :=
  let ctx := { ctx with count := ctx.count - 1 }
  let ctx := if ctx.count > 0 then flux_watcher_start ctx else flux_watcher_stop ctx
  { ctx with clients := zlist_remove ctx.clients cli }

/-- The callback `completion_cb`, for the client `cli` attached to `p`. -/
def completion_cb (ctx : Ctx) (cli : client) (exit_code signaled : Int) : Ctx :=
  let rc := completion_rc exit_code signaled
  let ctx := if rc > ctx.exit_rc then { ctx with exit_rc := rc } else ctx
  departure ctx cli

/-- The callback `state_cb`; the `EXITED` branch only logs. -/
def state_cb (ctx : Ctx) (cli : client) (state : flux_subprocess_state_t) : Ctx :=
  if state = FLUX_SUBPROCESS_FAILED then departure ctx cli
  else ctx

/-- The `while (cli)` loop of `killer`: one kill call per node, head first. -/
def killer_loop : List client → List KillCall → List KillCall
  | [], acc => acc
  | cli :: rest, acc => killer_loop rest (acc ++ [(cli.p, SIGKILL)])

/-- The timer callback `killer`. -/
def killer (s : Session) : Session :=
  { s with kills := killer_loop s.ctx.clients s.kills }

/-! ## Building a client -/

/-- The function `add_args_list`: append every value of option `name` to the
argz vector, in the order `optparse_getopt_next` yields them. -/
def add_args_list (argz : List String) (values : List String) : List String :=
  values.foldl (fun acc arg => acc ++ [arg]) argz

/-- Modelled from the spec: `flux_cmd_setenvf (cmd, overwrite, name, ...)` of the
subprocess library (not under src): with `overwrite` set, `name` is bound to the
formatted value, replacing an earlier binding in place. -/
def flux_cmd_setenvf (cmd : flux_cmd_t) (overwrite : Bool) (name val : String) : flux_cmd_t :=
  if cmd.env.any (fun kv => kv.1 == name) then
    if overwrite then
      { cmd with env := cmd.env.map (fun kv => if kv.1 == name then (name, val) else kv) }
    else cmd
  else { cmd with env := cmd.env ++ [(name, val)] }

/-- Modelled from the spec: lookup of `name` in the environment of a command
(first binding). -/
def flux_cmd_getenv (cmd : flux_cmd_t) (name : String) : Option String :=
  (cmd.env.find? (fun kv => kv.1 == name)).map (fun kv => kv.2)

/-- Modelled from the spec: `flux_cmd_create (0, NULL, environ)` of the subprocess
library (not under src): no arguments, a copy of `environ`, no channels. -/
def flux_cmd_create (environ : List (String × String)) : flux_cmd_t :=
  { argv := [], env := environ, channels := [] }

/-- The argz vector assembled in the first half of `client_create`. -/
def client_argz (opts : optparse_t) (broker_path scratch_dir : String) (rank : Int)
    (cmd_argz : Option (List String)) : List String :=
  let argz : List String := []
  let argz := add_args_list argz opts.wrap
  let argz := argz ++ [broker_path]
  let dir_arg := "--setattr=rundir=" ++ scratch_dir
  let argz := argz ++ [dir_arg]
  let argz := add_args_list argz opts.broker_opts
  match cmd_argz with
  | some cmd => if rank = 0 then argz ++ cmd else argz
  | none => argz

/-- The function `client_create`; `test_size` is `ctx.test_size`, `h` the fake
hostname (`none` = NULL). -/
def client_create (opts : optparse_t) (environ : List (String × String)) (test_size : Int)
    (broker_path scratch_dir : String) (rank : Int) (cmd_argz : Option (List String))
    (h : Option String) : client :=
  let argz := client_argz opts broker_path scratch_dir rank cmd_argz
  let cmd := flux_cmd_create environ
  let cmd := argz.foldl (fun c arg => { c with argv := c.argv ++ [arg] }) cmd
  let cmd := { cmd with channels := cmd.channels ++ ["PMI_FD"] }
  let cmd := flux_cmd_setenvf cmd true "PMI_RANK" (toString rank)
  let cmd := flux_cmd_setenvf cmd true "PMI_SIZE" (toString test_size)
  let cmd := flux_cmd_setenvf cmd true "FLUX_START_URI" ("local://" ++ scratch_dir ++ "/start")
  let cmd := match h with
    | some host => flux_cmd_setenvf cmd true "FLUX_FAKE_HOSTNAME" host
    | none => cmd
  { rank := rank, p := none, cmd := cmd }

/-- The function `client_run`: spawn the process and record its handle. -/
def client_run (w : World) (cli : client) : Except Fatal client :=
  match w.flux_local_exec cli.rank cli.cmd with
  | none => .error Fatal.flux_exec
  | some p => .ok { cli with p := some p }

/-! ## Session set-up -/

/-- The function `start_server_initialize`: the socket path is `rundir/start`,
which must fit `char path[1024]` with its terminator. -/
def start_server_initialize (w : World) (ctx : Ctx) (rundir : String) : Except Fatal Ctx :=
  let path := rundir ++ "/start"
  if path.utf8ByteSize ≥ 1024 then .error Fatal.internal_buffer_overflow
  else if w.usock_service_create path then .ok { ctx with h := some path }
  else .error Fatal.usock_service_create

/-- Modelled from the spec: `zhash_update` of the container library (not under
src): insert `key`, replacing an existing entry. -/
def zhash_update (kvs : List (String × String)) (key val : String) : List (String × String) :=
  (key, val) :: kvs.filter (fun kv => kv.1 != key)

/-- Modelled from the spec: `zhash_lookup` of the container library (not under
src): the value stored under `key`, `none` (NULL) when there is none. -/
def zhash_lookup (kvs : List (String × String)) (key : String) : Option String :=
  (kvs.find? (fun kv => kv.1 == key)).map (fun kv => kv.2)

/-- The function `pmi_server_initialize`, as far as `ctx.pmi.kvs` is concerned. -/
def pmi_server_initialize (opts : optparse_t) (w : World) (ctx : Ctx) : Except Fatal Ctx :=
  let ctx := { ctx with pmi_kvs := [] }
  if !opts.noclique then
    match w.pmi_process_mapping_encode ctx.test_size with
    | none => .error Fatal.pmi_process_mapping_encode
    | some buf => .ok { ctx with pmi_kvs := zhash_update ctx.pmi_kvs "PMI_process_mapping" buf }
  else .ok ctx

/-- Modelled from the spec: `hostlist_nth` of the hostlist library (not under
src): the `n`-th hostname, `none` (NULL) when out of range. -/
def hostlist_nth (hl : List String) (n : Int) : Option String :=
  if n < 0 then none else hl.get? n.toNat

/-- The argument `hosts ? hostlist_nth (hosts, rank) : NULL` of `client_create`. -/
def hostname_arg (hosts : Option (List String)) (rank : Int) : Option String :=
  match hosts with
  | some hl => hostlist_nth hl rank
  | none => none

/-- The hostlist block of `start_session`: decode `--test-hosts` and check it
against `ctx.test_size`. -/
def decode_test_hosts (opts : optparse_t) (w : World) (test_size : Int) :
    Except Fatal (Option (List String)) :=
  match opts.test_hosts with
  | none => .ok none
  | some s =>
    match w.hostlist_decode s with
    | none => .error Fatal.hostlist_decode
    | some hosts =>
      if (hosts.length : Int) ≠ test_size then .error Fatal.hostlist_size
      else .ok (some hosts)

/-- The loop `for (rank = ...; rank < ctx.test_size; rank++)` of `start_session`,
with `n` iterations left. -/
def spawn_loop (opts : optparse_t) (w : World) (broker_path scratch_dir : String)
    (cmd_argz : Option (List String)) (hosts : Option (List String)) :
    Nat → Int → Ctx → Except Fatal Ctx
  | 0, _, ctx => .ok ctx
  | n + 1, rank, ctx =>
    let cli := client_create opts w.environ ctx.test_size broker_path scratch_dir rank cmd_argz
      (hostname_arg hosts rank)
    if opts.noexec then
      spawn_loop opts w broker_path scratch_dir cmd_argz hosts n (rank + 1) ctx
    else
      match client_run w cli with
      | .error e => .error e
      | .ok cli =>
        let ctx := { ctx with clients := zlist_append ctx.clients cli }
        let ctx := { ctx with count := ctx.count + 1 }
        spawn_loop opts w broker_path scratch_dir cmd_argz hosts n (rank + 1) ctx

/-- The static `ctx` when `start_session` is entered: zero-initialised, with
`test_size` set by `main`. -/
def ctx_init (test_size : Int) : Ctx :=
  { timer := false, clients := [], test_size := test_size, count := 0, exit_rc := 0,
    pmi_kvs := [], h := none }

/-- The part of `start_session` that runs before `flux_reactor_run`. -/
def session_setup (opts : optparse_t) (w : World) (test_size : Int)
    (cmd_argz : Option (List String)) (broker_path : String) : Except Fatal Session :=
  let ctx := ctx_init test_size
  match (match opts.scratchdir with
         | some d => Except.ok d
         | none =>
           match w.create_scratch_dir with
           | some d => Except.ok d
           | none => Except.error Fatal.mkdtemp) with
  | .error e => .error e
  | .ok scratch_dir =>
    match start_server_initialize w ctx scratch_dir with
    | .error e => .error e
    | .ok ctx =>
      match pmi_server_initialize opts w ctx with
      | .error e => .error e
      | .ok ctx =>
        match decode_test_hosts opts w ctx.test_size with
        | .error e => .error e
        | .ok hosts =>
          match spawn_loop opts w broker_path scratch_dir cmd_argz hosts
              ctx.test_size.toNat 0 ctx with
          | .error e => .error e
          | .ok ctx => .ok { ctx := ctx, kills := [] }

/-! ## The reactor -/

/-- What the reactor can deliver to the session while it runs: the completion
callback of a subprocess (with the results of the two status queries), a state
change of a subprocess, or the expiry of the kill timer. -/
inductive Event where
  | completion (cli : client) (exit_code signaled : Int)
  | state_change (cli : client) (state : flux_subprocess_state_t)
  | timer_expired
deriving DecidableEq, Repr

/-- Modelled from the spec: one dispatch of the reactor (not under src).  The kill
timer is a one-shot timer: it expires only while armed, and is disarmed when it
fires, before `killer` runs. -/
def dispatch (s : Session) : Event → Session
  | .completion cli exit_code signaled =>
    { s with ctx := completion_cb s.ctx cli exit_code signaled }
  | .state_change cli state => { s with ctx := state_cb s.ctx cli state }
  | .timer_expired =>
    if s.ctx.timer then killer { s with ctx := flux_watcher_stop s.ctx } else s

/-- Modelled from the spec: `flux_reactor_run` (not under src) delivers a sequence
of events, one callback at a time. -/
def flux_reactor_run (s : Session) (events : List Event) : Session :=
  events.foldl dispatch s

/-- The function `start_session`: set up, run the reactor, return `ctx.exit_rc`. -/
def start_session (opts : optparse_t) (w : World) (test_size : Int)
    (cmd_argz : Option (List String)) (broker_path : String) (events : List Event) :
    Except Fatal Int :=
  match session_setup opts w test_size cmd_argz broker_path with
  | .error e => .error e
  | .ok s => .ok (flux_reactor_run s events).ctx.exit_rc

/-! ## The bootstrap key-value store -/

/-- The function `pmi_kvs_put`: store a copy of `val` under `key` in `ctx.pmi.kvs`
and return 0.  The arguments `arg` and `kvsname` are not used. -/
def pmi_kvs_put (ctx : Ctx) (kvsname key val : String) : Ctx × Int :=
  let _ := kvsname
  ({ ctx with pmi_kvs := zhash_update ctx.pmi_kvs key val }, 0)

/-- A call `pmi_simple_server_kvs_get_complete (ctx.pmi.srv, client, v)`; the
value `none` is a NULL `v`. -/
abbrev KvsGetComplete := client × Option String

/-- The function `pmi_kvs_get`: look `key` up and complete the request of `client`
with what was found.  `complete` is the result of the completion call of the
protocol server (not under src); the function returns the call it made and then
either 0 or the fatal exit taken when the call fails. -/
def pmi_kvs_get (complete : client → Option String → Int) (ctx : Ctx) (cli : client)
    (kvsname key : String) : KvsGetComplete × Except Fatal Int :=
  let _ := kvsname
  let v := zhash_lookup ctx.pmi_kvs key
  if complete cli v < 0 then ((cli, v), .error Fatal.pmi_simple_server_kvs_get_complete)
  else ((cli, v), .ok 0)

/-! ## The control service -/

/-- The value of `ENOMEM` from `errno.h`. -/
def ENOMEM : Int := 12

/-- The JSON object `{"pid": i}` packed by `status_cb`. -/
structure ProcRecord where
  pid : Int
deriving DecidableEq, Repr

/-- The response sent by `status_cb`: the payload `{"procs": [...]}` of
`flux_respond_pack`, or the error number of `flux_respond_error`. -/
inductive StatusResponse where
  | procs (records : List ProcRecord)
  | error (errnum : Int)
deriving DecidableEq, Repr

/-- Modelled from the spec: `flux_subprocess_pid` of the subprocess library (not
under src): the process identifier of the handle, -1 for a NULL handle. -/
def flux_subprocess_pid : Option flux_subprocess_t → Int
  | some p => p.pid
  | none => -1

/-- Outcome of the JSON allocations made by `status_cb`: `array_ok` for
`json_array ()`, `entry_ok i` for `json_pack` and `json_array_append_new` of the
`i`-th entry. -/
structure JsonAlloc where
  array_ok : Bool
  entry_ok : Nat → Bool

/-- The `while (cli)` loop of `status_cb`, at entry number `i`: `none` is the jump
to `nomem`. -/
def status_loop (alloc : JsonAlloc) : List client → Nat → List ProcRecord →
    Option (List ProcRecord)
  | [], _, procs => some procs
  | cli :: rest, i, procs =>
    if alloc.entry_ok i then
      status_loop alloc rest (i + 1) (procs ++ [{ pid := flux_subprocess_pid cli.p }])
    else none

/-- The handler `status_cb` of the request `start.status`. -/
def status_cb (alloc : JsonAlloc) (ctx : Ctx) : StatusResponse :=
  if alloc.array_ok then
    match status_loop alloc ctx.clients 0 [] with
    | some procs => .procs procs
    | none => .error ENOMEM
  else .error ENOMEM

/-! ## The bootstrap channel -/

/-- The calls `channel_cb` makes: a request forwarded to the protocol server with
its token and identity, and the closing of a stream of the client's subprocess. -/
inductive ChannelCall where
  | pmi_simple_server_request (line : String) (token : client) (rank : Int)
  | flux_subprocess_close (cli : client) (stream : String)
deriving DecidableEq, Repr

/-- The callback `channel_cb`, for the client `cli` attached to `p`.  `read_line`
is the result of `flux_subprocess_read_line` (`none` = NULL, `lenp` is the length of
the line in bytes) and `request` the result of `pmi_simple_server_request`; the
function returns the calls it made and then either nothing or the fatal exit. -/
def channel_cb (request : String → client → Int → Int) (cli : client) (stream : String)
    (read_line : Option String) : List ChannelCall × Except Fatal Unit :=
  if stream ≠ "PMI_FD" then ([], .error Fatal.assertion)
  else
    match read_line with
    | none => ([], .error Fatal.flux_subprocess_read_line)
    | some ptr =>
      let lenp := ptr.utf8ByteSize
      if lenp ≠ 0 then
        let rc := request ptr cli cli.rank
        if rc < 0 then
          ([ChannelCall.pmi_simple_server_request ptr cli cli.rank],
            .error Fatal.pmi_simple_server_request)
        else if rc = 1 then
          ([ChannelCall.pmi_simple_server_request ptr cli cli.rank,
            ChannelCall.flux_subprocess_close cli stream], .ok ())
        else ([ChannelCall.pmi_simple_server_request ptr cli cli.rank], .ok ())
      else ([], .ok ())

/-! ## Session set-up with the calls it makes -/

/-- The calls of the spawn loop that create a client or launch a process. -/
inductive SetupCall where
  | client_create (rank : Int) (h : Option String)
  | flux_local_exec (rank : Int) (cmd : flux_cmd_t)
deriving DecidableEq, Repr

/-- The loop of `start_session` as in `spawn_loop`, also returning the calls to
`client_create` and `flux_local_exec` in the order they are made, whether or not
the loop runs to its end. -/
def spawn_loop_calls (opts : optparse_t) (w : World) (broker_path scratch_dir : String)
    (cmd_argz : Option (List String)) (hosts : Option (List String)) :
    Nat → Int → Ctx → List SetupCall → List SetupCall × Except Fatal Ctx
  | 0, _, ctx, calls => (calls, .ok ctx)
  | n + 1, rank, ctx, calls =>
    let cli := client_create opts w.environ ctx.test_size broker_path scratch_dir rank cmd_argz
      (hostname_arg hosts rank)
    let calls := calls ++ [SetupCall.client_create rank (hostname_arg hosts rank)]
    if opts.noexec then
      spawn_loop_calls opts w broker_path scratch_dir cmd_argz hosts n (rank + 1) ctx calls
    else
      let calls := calls ++ [SetupCall.flux_local_exec cli.rank cli.cmd]
      match client_run w cli with
      | .error e => (calls, .error e)
      | .ok cli =>
        let ctx := { ctx with clients := zlist_append ctx.clients cli }
        let ctx := { ctx with count := ctx.count + 1 }
        spawn_loop_calls opts w broker_path scratch_dir cmd_argz hosts n (rank + 1) ctx calls

/-- The part of `start_session` that runs before `flux_reactor_run`, as in
`session_setup`, also returning the calls to `client_create` and
`flux_local_exec` made before it finishes or exits. -/
def session_setup_calls (opts : optparse_t) (w : World) (test_size : Int)
    (cmd_argz : Option (List String)) (broker_path : String) :
    List SetupCall × Except Fatal Session :=
  let ctx := ctx_init test_size
  match (match opts.scratchdir with
         | some d => Except.ok d
         | none =>
           match w.create_scratch_dir with
           | some d => Except.ok d
           | none => Except.error Fatal.mkdtemp) with
  | .error e => ([], .error e)
  | .ok scratch_dir =>
    match start_server_initialize w ctx scratch_dir with
    | .error e => ([], .error e)
    | .ok ctx =>
      match pmi_server_initialize opts w ctx with
      | .error e => ([], .error e)
      | .ok ctx =>
        match decode_test_hosts opts w ctx.test_size with
        | .error e => ([], .error e)
        | .ok hosts =>
          match spawn_loop_calls opts w broker_path scratch_dir cmd_argz hosts
              ctx.test_size.toNat 0 ctx [] with
          | (calls, .error e) => (calls, .error e)
          | (calls, .ok ctx) => (calls, .ok { ctx := ctx, kills := [] })

/-! ## Vocabulary of the statements -/

/-- The statuses `rc` computed by the completion callbacks among `events`, in
order of delivery. -/
def completion_statuses : List Event → List Int
  | [] => []
  | .completion _ exit_code signaled :: es =>
    completion_rc exit_code signaled :: completion_statuses es
  | .state_change _ _ :: es => completion_statuses es
  | .timer_expired :: es => completion_statuses es

/-- The clients whose completion callback is among `events`, in order of delivery. -/
def completed_clients : List Event → List client
  | [] => []
  | .completion cli _ _ :: es => cli :: completed_clients es
  | .state_change _ _ :: es => completed_clients es
  | .timer_expired :: es => completed_clients es

/-- The client a departure event removes: a completion, or a state change to
`FLUX_SUBPROCESS_FAILED`.  Other events are not departures. -/
def departing_client : Event → Option client
  | .completion cli _ _ => some cli
  | .state_change cli state => if state = FLUX_SUBPROCESS_FAILED then some cli else none
  | .timer_expired => none

/-- A sequence of departures from `live`: every event is a departure, of a client
of `live`, and no client departs twice. -/
def DepartureSeq (live : List client) (events : List Event) : Prop :=
  (∀ e ∈ events, (departing_client e).isSome) ∧
  (events.filterMap departing_client).Nodup ∧
  ∀ cli ∈ events.filterMap departing_client, cli ∈ live

/-- An event of a normal exit with code 0: an `EXITED` state change, or a
completion whose exit code query returns 0. -/
def exits_zero : Event → Bool
  | .state_change _ state => decide (state = FLUX_SUBPROCESS_EXITED)
  | .completion _ exit_code _ => decide (exit_code = 0)
  | .timer_expired => false

/-- A run in which every client of `live` exits normally with code 0: the events
are `EXITED` state changes and completions with exit code 0, and the completions
are those of the clients of `live`, one each, in any order. -/
def AllExitZero (live : List client) (events : List Event) : Prop :=
  (∀ e ∈ events, exits_zero e = true) ∧ (completed_clients events).Perm live

/-- The scratch directory `start_session` uses: `--scratchdir` when given,
otherwise the directory made by `create_scratch_dir`. -/
def scratch_dir_of (opts : optparse_t) (w : World) : Option String :=
  match opts.scratchdir with
  | some d => some d
  | none => w.create_scratch_dir

/-- The client appended to the live-set by the loop iteration for `rank`: the
result of `client_create` with the handle returned by `flux_local_exec`. -/
def spawned_client (opts : optparse_t) (w : World) (test_size : Int)
    (broker_path scratch_dir : String) (cmd_argz : Option (List String))
    (hosts : Option (List String)) (rank : Int) : client :=
  let cli := client_create opts w.environ test_size broker_path scratch_dir rank cmd_argz
    (hostname_arg hosts rank)
  { cli with p := w.flux_local_exec cli.rank cli.cmd }

/-- Every bookkeeping callback among `events` (a completion or a `FAILED` state
change) is delivered for a client that is in the live-set when it is delivered. -/
def LiveDeliveries : Session → List Event → Prop
  | _, [] => True
  | s, e :: es =>
    (∀ cli, departing_client e = some cli → cli ∈ s.ctx.clients) ∧
    LiveDeliveries (dispatch s e) es

/-- The store after a sequence of `pmi_kvs_put` calls, given as key-value pairs in
the order of the calls. -/
def pmi_kvs_puts (ctx : Ctx) (kvsname : String) : List (String × String) → Ctx
  | [] => ctx
  | kv :: rest => pmi_kvs_puts (pmi_kvs_put ctx kvsname kv.1 kv.2).1 kvsname rest

/-! ## Sample sessions -/

/-- Options of a sample run: no wrapper, one broker option, no hostlist. -/
def sample_opts : optparse_t :=
  { verbose := false, noexec := false, test_hosts := none, broker_opts := ["-v"],
    wrap := [], trace_pmi_server := false, scratchdir := none, noclique := true }

/-- A sample environment in which every call succeeds; the process spawned for
rank `r` has pid `100 + r`. -/
def sample_world : World :=
  { environ := [("PATH", "/bin")],
    create_scratch_dir := some "/tmp/flux-a",
    usock_service_create := fun _ => true,
    pmi_process_mapping_encode := fun _ => none,
    hostlist_decode := fun _ => some ["n0", "n1", "n2"],
    flux_local_exec := fun rank _ => some { pid := 100 + rank } }

/-- The client of rank `rank` in a sample session of `test_size` brokers. -/
def sample_client (test_size rank : Int) : client :=
  { client_create sample_opts sample_world.environ test_size "flux-broker" "/tmp/flux-a"
      rank none none with p := some { pid := 100 + rank } }

/-- The sample session of `test_size` brokers right after its spawn loop. -/
def sample_session (test_size : Nat) : Session :=
  { ctx := { ctx_init test_size with
      clients := (List.range test_size).map (fun r => sample_client test_size r),
      count := test_size, h := some "/tmp/flux-a/start" },
    kills := [] }

/-- A sample run of one broker whose completion reports neither an exit code nor
a signal. -/
def sample_unknown_status_run : List Event :=
  [Event.completion (sample_client 1 0) (-1) (-1)]

/-- A sample run of one broker that fails to start. -/
def sample_failed_start_run : List Event :=
  [Event.state_change (sample_client 1 0) FLUX_SUBPROCESS_FAILED]

/-- A sample run of three brokers: rank 1 exits with code 7, the others with 0. -/
def sample_exit_code_run : List Event :=
  [Event.completion (sample_client 3 0) 0 (-1),
   Event.completion (sample_client 3 1) 7 (-1),
   Event.completion (sample_client 3 2) 0 (-1)]

/-- A sample sequence of departures from the session of three brokers: rank 1
completes with exit code 0, then rank 0 fails. -/
def sample_departures : List Event :=
  [Event.completion (sample_client 3 1) 0 (-1),
   Event.state_change (sample_client 3 0) FLUX_SUBPROCESS_FAILED]

/-- A sample run of the session of three brokers in which rank 0 completes and the
kill timer then expires while ranks 1 and 2 are still live. -/
def sample_kill_run : List Event :=
  [Event.completion (sample_client 3 0) 0 (-1), Event.timer_expired]

/-- A sample run of two brokers that both exit with code 0, interleaved. -/
def sample_exit_zero_run : List Event :=
  [Event.state_change (sample_client 2 1) FLUX_SUBPROCESS_EXITED,
   Event.state_change (sample_client 2 0) FLUX_SUBPROCESS_EXITED,
   Event.completion (sample_client 2 1) 0 (-1),
   Event.completion (sample_client 2 0) 0 (-1)]

/-- A sample environment in which no broker can be spawned. -/
def sample_failing_world : World :=
  { sample_world with flux_local_exec := fun _ _ => none }

/-- Options of a sample run with a wrapper, a broker option and a hostlist. -/
def sample_hosts_opts : optparse_t :=
  { verbose := false, noexec := false, test_hosts := some "n[0-2]", broker_opts := ["-v"],
    wrap := ["strace"], trace_pmi_server := false, scratchdir := some "/run/fx",
    noclique := true }

/-- The sample session of three brokers started with `sample_hosts_opts` and the
command `sleep 1`, right after its spawn loop. -/
def sample_hosts_session : Session :=
  { ctx := { ctx_init 3 with
      clients := (List.range 3).map (fun (i : Nat) =>
        spawned_client sample_hosts_opts sample_world 3 "flux-broker" "/run/fx"
          (some ["sleep", "1"]) (some ["n0", "n1", "n2"]) (i : Int)),
      count := 3, h := some "/run/fx/start" },
    kills := [] }

/-- A sample store holding the pre-populated process mapping and one key put by a
broker. -/
def sample_kvs_ctx : Ctx :=
  { ctx_init 2 with pmi_kvs := [("PMI_process_mapping", "(vector,(0,1,2))"), ("a", "1")] }

/-- Options of a sample run whose hostlist has three entries. -/
def sample_mismatch_opts : optparse_t :=
  { sample_opts with test_hosts := some "n[0-2]" }

/-- A sample run of five brokers in which ranks 0, 2 and 4 have completed. -/
def sample_three_done_run : List Event :=
  [Event.completion (sample_client 5 0) 0 (-1),
   Event.completion (sample_client 5 2) 0 (-1),
   Event.completion (sample_client 5 4) 0 (-1)]

/-- A sample run of five brokers in which every broker has completed. -/
def sample_all_done_run : List Event :=
  (List.range 5).map (fun (i : Nat) => Event.completion (sample_client 5 (i : Int)) 0 (-1))

/-- Sample allocations that all succeed. -/
def sample_alloc : JsonAlloc :=
  { array_ok := true, entry_ok := fun _ => true }

/-- A sample protocol server that answers `finalize` with 1 (complete), `bad`
with -1 (error) and every other line with 0 (in progress). -/
def sample_request (line : String) (token : client) (rank : Int) : Int :=
  let _ := token
  let _ := rank
  if line = "cmd=finalize\n" then 1 else if line = "bad\n" then -1 else 0

/-- A sample run of three brokers mixing every kind of callback: rank 1 exits with
code 3, the kill timer expires, rank 0 fails, rank 2 is reported killed by signal 9. -/
def sample_mixed_run : List Event :=
  [Event.state_change (sample_client 3 1) FLUX_SUBPROCESS_EXITED,
   Event.completion (sample_client 3 1) 3 (-1),
   Event.timer_expired,
   Event.state_change (sample_client 3 0) FLUX_SUBPROCESS_FAILED,
   Event.state_change (sample_client 3 2) FLUX_SUBPROCESS_EXITED,
   Event.completion (sample_client 3 2) (-1) 9]

/-! ## Callbacks: elementary facts -/

theorem departure_count (ctx : Ctx) (cli : client) :
    (departure ctx cli).count = ctx.count - 1 := by
  unfold departure flux_watcher_start flux_watcher_stop
  dsimp only
  split <;> rfl

theorem departure_timer (ctx : Ctx) (cli : client) :
    (departure ctx cli).timer = decide (ctx.count - 1 > 0) := by
  unfold departure flux_watcher_start flux_watcher_stop
  dsimp only
  split <;> simp_all

theorem departure_clients (ctx : Ctx) (cli : client) :
    (departure ctx cli).clients = ctx.clients.erase cli := by
  unfold departure flux_watcher_start flux_watcher_stop zlist_remove
  dsimp only
  split <;> rfl

theorem departure_exit_rc (ctx : Ctx) (cli : client) :
    (departure ctx cli).exit_rc = ctx.exit_rc := by
  unfold departure flux_watcher_start flux_watcher_stop
  dsimp only
  split <;> rfl

theorem completion_cb_count (ctx : Ctx) (cli : client) (exit_code signaled : Int) :
    (completion_cb ctx cli exit_code signaled).count = ctx.count - 1 := by
  unfold completion_cb
  dsimp only
  rw [departure_count]
  split <;> rfl

theorem completion_cb_timer (ctx : Ctx) (cli : client) (exit_code signaled : Int) :
    (completion_cb ctx cli exit_code signaled).timer = decide (ctx.count - 1 > 0) := by
  unfold completion_cb
  dsimp only
  rw [departure_timer]
  split <;> rfl

theorem completion_cb_clients (ctx : Ctx) (cli : client) (exit_code signaled : Int) :
    (completion_cb ctx cli exit_code signaled).clients = ctx.clients.erase cli := by
  unfold completion_cb
  dsimp only
  rw [departure_clients]
  split <;> rfl

theorem completion_cb_exit_rc (ctx : Ctx) (cli : client) (exit_code signaled : Int) :
    (completion_cb ctx cli exit_code signaled).exit_rc
      = max ctx.exit_rc (completion_rc exit_code signaled) := by
  unfold completion_cb
  dsimp only
  rw [departure_exit_rc]
  split
  · rename_i hgt
    exact (max_eq_right (le_of_lt hgt)).symm
  · rename_i hgt
    exact (max_eq_left (not_lt.mp hgt)).symm

theorem state_cb_exit_rc (ctx : Ctx) (cli : client) (state : flux_subprocess_state_t) :
    (state_cb ctx cli state).exit_rc = ctx.exit_rc := by
  unfold state_cb
  split
  · exact departure_exit_rc ctx cli
  · rfl

theorem killer_loop_eq (l : List client) (acc : List KillCall) :
    killer_loop l acc = acc ++ l.map (fun cli => (cli.p, SIGKILL)) := by
  induction l generalizing acc with
  | nil => simp [killer_loop]
  | cons cli rest ih => simp [killer_loop, ih]

/-- After erasing a member of a list, the list splits around its first occurrence. -/
theorem erase_split (l : List client) (cli : client) (hmem : cli ∈ l) :
    ∃ l1 l2, l = l1 ++ cli :: l2 ∧ cli ∉ l1 ∧ l.erase cli = l1 ++ l2 := by
  induction l with
  | nil => simp at hmem
  | cons a rest ih =>
    by_cases hac : a = cli
    · subst hac
      exact ⟨[], rest, by simp, by simp, by simp⟩
    · have hmem2 : cli ∈ rest := by
        rcases List.mem_cons.mp hmem with h | h
        · exact absurd h.symm hac
        · exact h
      obtain ⟨l1, l2, h1, h2, h3⟩ := ih hmem2
      refine ⟨a :: l1, l2, by simp [h1], ?_, ?_⟩
      · intro hin
        rcases List.mem_cons.mp hin with h | h
        · exact hac h.symm
        · exact h2 h
      · rw [List.erase_cons_tail (by simpa using hac), h3]
        rfl

/-! ## Session set-up: what the spawn loop leaves behind -/

theorem client_create_rank (opts : optparse_t) (environ : List (String × String))
    (test_size : Int) (broker_path scratch_dir : String) (rank : Int)
    (cmd_argz : Option (List String)) (h : Option String) :
    (client_create opts environ test_size broker_path scratch_dir rank cmd_argz h).rank
      = rank := rfl

theorem spawn_loop_noexec (opts : optparse_t) (w : World) (broker_path scratch_dir : String)
    (cmd_argz : Option (List String)) (hosts : Option (List String))
    (hno : opts.noexec = true) (n : Nat) (rank : Int) (ctx : Ctx) :
    spawn_loop opts w broker_path scratch_dir cmd_argz hosts n rank ctx = .ok ctx := by
  induction n generalizing rank with
  | zero => rfl
  | succ k ih =>
    unfold spawn_loop
    simp only [hno, if_true]
    exact ih (rank + 1)

theorem spawn_loop_exec (opts : optparse_t) (w : World) (broker_path scratch_dir : String)
    (cmd_argz : Option (List String)) (hosts : Option (List String))
    (hex : opts.noexec = false) (n : Nat) (rank : Int) (ctx ctx' : Ctx)
    (hok : spawn_loop opts w broker_path scratch_dir cmd_argz hosts n rank ctx = .ok ctx') :
    ctx' = { ctx with
      clients := ctx.clients ++ (List.range n).map (fun (i : Nat) =>
        spawned_client opts w ctx.test_size broker_path scratch_dir cmd_argz hosts
          (rank + (i : Int))),
      count := ctx.count + (n : Int) } := by
  induction n generalizing rank ctx with
  | zero =>
    unfold spawn_loop at hok
    cases hok
    simp
  | succ k ih =>
    unfold spawn_loop at hok
    simp only [hex, Bool.false_eq_true, if_false] at hok
    unfold client_run at hok
    simp only [client_create_rank] at hok
    cases hp : w.flux_local_exec rank
        (client_create opts w.environ ctx.test_size broker_path scratch_dir rank cmd_argz
          (hostname_arg hosts rank)).cmd with
    | none =>
      rw [hp] at hok
      cases hok
    | some p =>
      rw [hp] at hok
      have h := ih (rank + 1) _ hok
      rw [h]
      have hsp : spawned_client opts w ctx.test_size broker_path scratch_dir cmd_argz hosts rank
          = { client_create opts w.environ ctx.test_size broker_path scratch_dir rank cmd_argz
                (hostname_arg hosts rank) with p := some p } := by
        unfold spawned_client
        simp only [client_create_rank]
        rw [hp]
      have hcl : zlist_append ctx.clients
            { client_create opts w.environ ctx.test_size broker_path scratch_dir rank cmd_argz
                (hostname_arg hosts rank) with p := some p } ++
          (List.range k).map (fun (i : Nat) =>
            spawned_client opts w ctx.test_size broker_path scratch_dir cmd_argz hosts
              (rank + 1 + (i : Int)))
          = ctx.clients ++ (List.range (k + 1)).map (fun (i : Nat) =>
            spawned_client opts w ctx.test_size broker_path scratch_dir cmd_argz hosts
              (rank + (i : Int))) := by
        simp only [zlist_append, List.range_succ_eq_map, List.map_cons, List.map_map,
          List.append_assoc, List.singleton_append, Nat.cast_zero, add_zero, hsp]
        congr 2
        apply List.map_congr_left
        intro i _
        simp only [Function.comp, Nat.cast_succ]
        congr 1
        ring
      have hct : ctx.count + 1 + (k : Int) = ctx.count + ((k + 1 : Nat) : Int) := by
        push_cast
        ring
      simp only [client_create_rank] at hcl
      dsimp only at hcl ⊢
      rw [hcl, hct]

theorem spawn_loop_handles (opts : optparse_t) (w : World) (broker_path scratch_dir : String)
    (cmd_argz : Option (List String)) (hosts : Option (List String))
    (n : Nat) (rank : Int) (ctx ctx' : Ctx)
    (hok : spawn_loop opts w broker_path scratch_dir cmd_argz hosts n rank ctx = .ok ctx')
    (hctx : ∀ c ∈ ctx.clients, c.p.isSome) :
    ∀ c ∈ ctx'.clients, c.p.isSome := by
  induction n generalizing rank ctx with
  | zero =>
    unfold spawn_loop at hok
    cases hok
    exact hctx
  | succ k ih =>
    unfold spawn_loop at hok
    cases hno : opts.noexec with
    | true =>
      simp only [hno, if_true] at hok
      exact ih _ _ hok hctx
    | false =>
      simp only [hno, Bool.false_eq_true, if_false] at hok
      unfold client_run at hok
      simp only [client_create_rank] at hok
      cases hp : w.flux_local_exec rank
          (client_create opts w.environ ctx.test_size broker_path scratch_dir rank cmd_argz
            (hostname_arg hosts rank)).cmd with
      | none =>
        rw [hp] at hok
        cases hok
      | some p =>
        rw [hp] at hok
        refine ih _ _ hok ?_
        intro c hc
        simp only [zlist_append, List.mem_append, List.mem_singleton] at hc
        rcases hc with hc | hc
        · exact hctx c hc
        · rw [hc]
          rfl

theorem start_server_initialize_ok (w : World) (ctx ctx' : Ctx) (rundir : String)
    (hok : start_server_initialize w ctx rundir = .ok ctx') :
    (rundir ++ "/start").utf8ByteSize < 1024 ∧ ctx' = { ctx with h := some (rundir ++ "/start") } := by
  unfold start_server_initialize at hok
  dsimp only at hok
  split at hok
  · cases hok
  · rename_i hlt
    split at hok
    · cases hok
      exact ⟨not_le.mp hlt, rfl⟩
    · cases hok

theorem pmi_server_initialize_ok (opts : optparse_t) (w : World) (ctx ctx' : Ctx)
    (hok : pmi_server_initialize opts w ctx = .ok ctx') :
    ∃ kvs, ctx' = { ctx with pmi_kvs := kvs } := by
  unfold pmi_server_initialize at hok
  dsimp only at hok
  split at hok
  · split at hok
    · cases hok
    · cases hok
      exact ⟨_, rfl⟩
  · cases hok
    exact ⟨_, rfl⟩

/-- What a successful set-up leaves behind: the control service is bound to
`d/start`, nothing has been killed, the timer is disarmed, the aggregate exit
code is 0, and the live-set holds the spawned clients of ranks `0 .. test_size-1`
in rank order (none under `--noexec`), counted by `ctx.count`. -/
theorem session_setup_ok (opts : optparse_t) (w : World) (test_size : Int)
    (cmd_argz : Option (List String)) (broker_path : String) (s : Session)
    (hok : session_setup opts w test_size cmd_argz broker_path = .ok s) :
    ∃ d hosts, scratch_dir_of opts w = some d ∧
      decode_test_hosts opts w test_size = .ok hosts ∧
      (d ++ "/start").utf8ByteSize < 1024 ∧
      s.kills = [] ∧ s.ctx.timer = false ∧ s.ctx.exit_rc = 0 ∧
      s.ctx.test_size = test_size ∧ s.ctx.h = some (d ++ "/start") ∧
      s.ctx.clients = (if opts.noexec then [] else
        (List.range test_size.toNat).map (fun (i : Nat) =>
          spawned_client opts w test_size broker_path d cmd_argz hosts (i : Int))) ∧
      s.ctx.count = (s.ctx.clients.length : Int) ∧
      ∀ c ∈ s.ctx.clients, c.p.isSome := by
  unfold session_setup at hok
  dsimp only at hok
  cases hd : scratch_dir_of opts w with
  | none =>
    unfold scratch_dir_of at hd
    cases hsd : opts.scratchdir with
    | some d => rw [hsd] at hd; cases hd
    | none =>
      rw [hsd] at hd hok
      dsimp only at hd hok
      rw [hd] at hok
      cases hok
  | some d =>
    have hres : (match opts.scratchdir with
         | some d => Except.ok d
         | none =>
           match w.create_scratch_dir with
           | some d => Except.ok d
           | none => Except.error Fatal.mkdtemp) = (Except.ok d : Except Fatal String) := by
      unfold scratch_dir_of at hd
      cases hsd : opts.scratchdir with
      | some d2 => rw [hsd] at hd; cases hd; rfl
      | none =>
        rw [hsd] at hd
        dsimp only at hd ⊢
        rw [hd]
    rw [hres] at hok
    dsimp only at hok
    cases h1 : start_server_initialize w (ctx_init test_size) d with
    | error e => rw [h1] at hok; cases hok
    | ok ctx1 =>
      rw [h1] at hok
      dsimp only at hok
      obtain ⟨hlen, hctx1⟩ := start_server_initialize_ok _ _ _ _ h1
      cases h2 : pmi_server_initialize opts w ctx1 with
      | error e => rw [h2] at hok; cases hok
      | ok ctx2 =>
        rw [h2] at hok
        dsimp only at hok
        obtain ⟨kvs, hctx2⟩ := pmi_server_initialize_ok _ _ _ _ h2
        have hts : ctx2.test_size = test_size := by rw [hctx2, hctx1]; rfl
        rw [hts] at hok
        cases h3 : decode_test_hosts opts w test_size with
        | error e => rw [h3] at hok; cases hok
        | ok hosts =>
          rw [h3] at hok
          dsimp only at hok
          cases h4 : spawn_loop opts w broker_path d cmd_argz hosts test_size.toNat 0 ctx2 with
          | error e => rw [h4] at hok; cases hok
          | ok ctx3 =>
            rw [h4] at hok
            cases hok
            have hps := spawn_loop_handles _ _ _ _ _ _ _ _ _ _ h4
              (by rw [hctx2, hctx1]; intro c hc; cases hc)
            refine ⟨d, hosts, rfl, rfl, hlen, rfl, ?_⟩
            cases hno : opts.noexec with
            | true =>
              rw [spawn_loop_noexec _ _ _ _ _ _ hno] at h4
              cases h4
              subst hctx2
              subst hctx1
              simp [ctx_init]
            | false =>
              have h5 := spawn_loop_exec _ _ _ _ _ _ hno _ _ _ _ h4
              subst h5
              subst hctx2
              subst hctx1
              refine ⟨rfl, rfl, rfl, rfl, ?_, ?_, hps⟩
              · simp [ctx_init]
              · simp [ctx_init]

/-! ## The environment and argument vector of a client -/

theorem find_env_map_same (env : List (String × String)) (name val : String)
    (hany : env.any (fun kv => kv.1 == name) = true) :
    ((env.map (fun kv => if kv.1 == name then (name, val) else kv)).find?
      (fun kv => kv.1 == name)).map (fun kv => kv.2) = some val := by
  induction env with
  | nil => simp at hany
  | cons a rest ih =>
    by_cases ha : a.1 = name
    · simp [List.find?, ha]
    · have hrest : rest.any (fun kv => kv.1 == name) = true := by
        simpa [ha] using hany
      simp only [List.map_cons, ha, beq_iff_eq, if_false, List.find?]
      have : (a.1 == name) = false := by simpa using ha
      rw [this]
      simpa using ih hrest

theorem find_env_map_other (env : List (String × String)) (name val other : String)
    (hne : other ≠ name) :
    ((env.map (fun kv => if kv.1 == name then (name, val) else kv)).find?
      (fun kv => kv.1 == other)).map (fun kv => kv.2)
      = (env.find? (fun kv => kv.1 == other)).map (fun kv => kv.2) := by
  induction env with
  | nil => rfl
  | cons a rest ih =>
    by_cases ha : a.1 = name
    · have h1 : (name == other) = false := by simpa using (Ne.symm hne)
      have h2 : (a.1 == other) = false := by rw [ha]; exact h1
      simp only [List.map_cons, ha, beq_self_eq_true, if_true, List.find?_cons, h1, h2]
      exact ih
    · have h0 : (a.1 == name) = false := by simpa using ha
      rcases Bool.eq_false_or_eq_true (a.1 == other) with hao | hao
      · simp only [List.map_cons, h0, List.find?_cons, hao, Bool.false_eq_true, if_false]
      · simp only [List.map_cons, h0, List.find?_cons, hao, Bool.false_eq_true, if_false]
        exact ih

theorem find_env_append (env : List (String × String)) (name val other : String)
    (hne : other ≠ name) :
    ((env ++ [(name, val)]).find? (fun kv => kv.1 == other)).map (fun kv => kv.2)
      = (env.find? (fun kv => kv.1 == other)).map (fun kv => kv.2) := by
  have h1 : (name == other) = false := by simpa using (Ne.symm hne)
  induction env with
  | nil => simp [List.find?_cons, h1]
  | cons a rest ih =>
    rcases Bool.eq_false_or_eq_true (a.1 == other) with hao | hao
    · simp only [List.cons_append, List.find?_cons, hao]
    · simp only [List.cons_append, List.find?_cons, hao]
      exact ih

theorem find_env_append_same (env : List (String × String)) (name val : String)
    (hany : env.any (fun kv => kv.1 == name) = false) :
    ((env ++ [(name, val)]).find? (fun kv => kv.1 == name)).map (fun kv => kv.2) = some val := by
  induction env with
  | nil => simp [List.find?_cons]
  | cons a rest ih =>
    simp only [List.any_cons, Bool.or_eq_false_iff] at hany
    simp only [List.cons_append, List.find?_cons, hany.1]
    exact ih hany.2

theorem getenv_setenvf_same (cmd : flux_cmd_t) (name val : String) :
    flux_cmd_getenv (flux_cmd_setenvf cmd true name val) name = some val := by
  unfold flux_cmd_getenv flux_cmd_setenvf
  rcases Bool.eq_false_or_eq_true (cmd.env.any (fun kv => kv.1 == name)) with hany | hany
  · simp only [hany, if_true]
    exact find_env_map_same cmd.env name val hany
  · simp only [hany, Bool.false_eq_true, if_false]
    exact find_env_append_same cmd.env name val hany

theorem getenv_setenvf_other (cmd : flux_cmd_t) (name val other : String)
    (hne : other ≠ name) :
    flux_cmd_getenv (flux_cmd_setenvf cmd true name val) other = flux_cmd_getenv cmd other := by
  unfold flux_cmd_getenv flux_cmd_setenvf
  rcases Bool.eq_false_or_eq_true (cmd.env.any (fun kv => kv.1 == name)) with hany | hany
  · simp only [hany, if_true]
    exact find_env_map_other cmd.env name val other hne
  · simp only [hany, Bool.false_eq_true, if_false]
    exact find_env_append cmd.env name val other hne

theorem getenv_channels (cmd : flux_cmd_t) (chs : List String) (name : String) :
    flux_cmd_getenv { cmd with channels := chs } name = flux_cmd_getenv cmd name := rfl

theorem add_args_list_eq (argz values : List String) :
    add_args_list argz values = argz ++ values := by
  unfold add_args_list
  induction values generalizing argz with
  | nil => simp
  | cons a rest ih => simp [List.foldl_cons, ih]

theorem argv_append_fold (argz : List String) (cmd : flux_cmd_t) :
    argz.foldl (fun c arg => { c with argv := c.argv ++ [arg] }) cmd
      = { cmd with argv := cmd.argv ++ argz } := by
  induction argz generalizing cmd with
  | nil => simp
  | cons a rest ih => simp [List.foldl_cons, ih]

theorem setenvf_argv (cmd : flux_cmd_t) (name val : String) :
    (flux_cmd_setenvf cmd true name val).argv = cmd.argv := by
  unfold flux_cmd_setenvf
  split <;> simp

theorem client_argz_eq (opts : optparse_t) (broker_path scratch_dir : String) (rank : Int)
    (cmd_argz : Option (List String)) :
    client_argz opts broker_path scratch_dir rank cmd_argz
      = opts.wrap ++ [broker_path] ++ ["--setattr=rundir=" ++ scratch_dir] ++ opts.broker_opts
          ++ (if rank = 0 then cmd_argz.getD [] else []) := by
  unfold client_argz
  simp only [add_args_list_eq, List.nil_append]
  cases cmd_argz with
  | none => simp
  | some cmd =>
    by_cases hr : rank = 0
    · simp [hr]
    · simp [hr]

theorem client_create_argv_eq (opts : optparse_t) (environ : List (String × String))
    (test_size : Int) (broker_path scratch_dir : String) (rank : Int)
    (cmd_argz : Option (List String)) (h : Option String) :
    (client_create opts environ test_size broker_path scratch_dir rank cmd_argz h).cmd.argv
      = client_argz opts broker_path scratch_dir rank cmd_argz := by
  unfold client_create
  dsimp only
  rw [argv_append_fold]
  cases h with
  | none => simp [setenvf_argv, flux_cmd_create]
  | some host => simp [setenvf_argv, flux_cmd_create]

/-! ## The reactor run -/

theorem flux_reactor_run_append (s : Session) (es1 es2 : List Event) :
    flux_reactor_run s (es1 ++ es2) = flux_reactor_run (flux_reactor_run s es1) es2 := by
  unfold flux_reactor_run
  exact List.foldl_append _ _ _ _

theorem flux_reactor_run_cons (s : Session) (e : Event) (es : List Event) :
    flux_reactor_run s (e :: es) = flux_reactor_run (dispatch s e) es := rfl

theorem killer_ctx (s : Session) : (killer s).ctx = s.ctx := rfl

theorem dispatch_exit_rc (s : Session) (e : Event) :
    (dispatch s e).ctx.exit_rc = (completion_statuses [e]).foldl max s.ctx.exit_rc := by
  cases e with
  | completion cli exit_code signaled =>
    simp [dispatch, completion_statuses, completion_cb_exit_rc]
  | state_change cli state =>
    simp [dispatch, completion_statuses, state_cb_exit_rc]
  | timer_expired =>
    simp only [dispatch, completion_statuses, List.foldl_nil]
    split
    · rfl
    · rfl

theorem completion_statuses_append (es1 es2 : List Event) :
    completion_statuses (es1 ++ es2) = completion_statuses es1 ++ completion_statuses es2 := by
  induction es1 with
  | nil => rfl
  | cons e rest ih =>
    cases e <;> simp [completion_statuses, ih]

theorem flux_reactor_run_exit_rc (s : Session) (events : List Event) :
    (flux_reactor_run s events).ctx.exit_rc
      = (completion_statuses events).foldl max s.ctx.exit_rc := by
  induction events generalizing s with
  | nil => rfl
  | cons e rest ih =>
    rw [flux_reactor_run_cons, ih, dispatch_exit_rc]
    have : e :: rest = [e] ++ rest := rfl
    rw [this, completion_statuses_append, List.foldl_append]

theorem foldl_max_ge_init (l : List Int) (a : Int) : a ≤ l.foldl max a := by
  induction l generalizing a with
  | nil => exact le_refl a
  | cons x rest ih => exact le_trans (le_max_left a x) (ih (max a x))

theorem foldl_max_ge_mem (l : List Int) (a x : Int) (hx : x ∈ l) : x ≤ l.foldl max a := by
  induction l generalizing a with
  | nil => simp at hx
  | cons y rest ih =>
    rcases List.mem_cons.mp hx with h | h
    · subst h
      exact le_trans (le_max_right a x) (foldl_max_ge_init rest (max a x))
    · exact ih (max a y) h

theorem foldl_max_init_or_mem (l : List Int) (a : Int) :
    l.foldl max a = a ∨ l.foldl max a ∈ l := by
  induction l generalizing a with
  | nil => exact Or.inl rfl
  | cons y rest ih =>
    rcases ih (max a y) with h | h
    · rcases max_choice a y with h2 | h2
      · left
        rw [List.foldl_cons, h, h2]
      · right
        rw [List.foldl_cons, h, h2]
        exact List.mem_cons_self _ _
    · right
      exact List.mem_cons_of_mem _ h

/-! ## Claims -/

theorem start_session_returns (opts : optparse_t) (w : World) (test_size : Int)
    (cmd_argz : Option (List String)) (broker_path : String) (s : Session)
    (events : List Event)
    (hsetup : session_setup opts w test_size cmd_argz broker_path = .ok s) :
    start_session opts w test_size cmd_argz broker_path events
      = .ok ((completion_statuses events).foldl max 0) := by
  obtain ⟨d, hosts, _, _, _, _, _, hrc, _⟩ := session_setup_ok _ _ _ _ _ _ hsetup
  unfold start_session
  rw [hsetup]
  dsimp only
  rw [flux_reactor_run_exit_rc, hrc]

/-- C1 (as stated, refuted): in the sample session of one broker whose completion
reports neither an exit code nor a signal, the only computed status is -1, so the
maximum of the statuses is -1, while `start_session` returns 0: the returned value
is not the maximum of the statuses. -/
theorem start_session_aggregate_not_max :
    session_setup sample_opts sample_world 1 none "flux-broker" = .ok (sample_session 1) ∧
    (sample_session 1).ctx.clients = [sample_client 1 0] ∧
    completion_statuses sample_unknown_status_run = [-1] ∧
    (completion_statuses sample_unknown_status_run).maximum = ((-1 : Int) : WithBot Int) ∧
    start_session sample_opts sample_world 1 none "flux-broker" sample_unknown_status_run
      = .ok 0 ∧
    ¬ ∃ m : Int, (completion_statuses sample_unknown_status_run).maximum = (m : WithBot Int) ∧
      start_session sample_opts sample_world 1 none "flux-broker" sample_unknown_status_run
        = .ok m := by
  have hmax : (completion_statuses sample_unknown_status_run).maximum
      = ((-1 : Int) : WithBot Int) := by
    rw [List.maximum_eq_coe_iff]
    simp [sample_unknown_status_run, completion_statuses, completion_rc]
  have hret : start_session sample_opts sample_world 1 none "flux-broker"
      sample_unknown_status_run = .ok 0 := rfl
  refine ⟨rfl, rfl, rfl, hmax, hret, ?_⟩
  rintro ⟨m, hm, hs⟩
  rw [hmax] at hm
  rw [hret] at hs
  have h1 : (-1 : Int) = m := WithBot.coe_injective hm
  have h2 : (0 : Int) = m := by
    injection hs
  omega

/-- C1 (amended): whatever the reactor delivers to a session that was set up,
`start_session` returns the maximum of 0 and the statuses computed by the
completion callbacks: a value `rc ≥ 0` that bounds every status and is 0 or one of
them.  Hence it is the maximum of the statuses as soon as one of them is not
negative, and if one worker exits with code `C > 0` and all others with 0, it is `C`. -/
theorem start_session_aggregate_exit_code (opts : optparse_t) (w : World) (test_size : Int)
    (cmd_argz : Option (List String)) (broker_path : String) (s : Session)
    (events : List Event)
    (hsetup : session_setup opts w test_size cmd_argz broker_path = .ok s) :
    ∃ rc, start_session opts w test_size cmd_argz broker_path events = .ok rc ∧
      rc = (completion_statuses events).foldl max 0 ∧
      0 ≤ rc ∧
      (∀ st ∈ completion_statuses events, st ≤ rc) ∧
      (rc = 0 ∨ rc ∈ completion_statuses events) ∧
      ((∃ st ∈ completion_statuses events, 0 ≤ st) →
        (completion_statuses events).maximum = (rc : WithBot Int)) ∧
      (∀ C : Int, 0 < C → C ∈ completion_statuses events →
        (∀ st ∈ completion_statuses events, st = C ∨ st = 0) → rc = C) := by
  refine ⟨(completion_statuses events).foldl max 0,
    start_session_returns _ _ _ _ _ _ _ hsetup, rfl, ?_, ?_, ?_, ?_, ?_⟩
  · exact foldl_max_ge_init _ 0
  · intro st hst
    exact foldl_max_ge_mem _ 0 st hst
  · exact foldl_max_init_or_mem _ 0
  · rintro ⟨st, hst, hpos⟩
    rw [List.maximum_eq_coe_iff]
    refine ⟨?_, fun a ha => foldl_max_ge_mem _ 0 a ha⟩
    rcases foldl_max_init_or_mem (completion_statuses events) 0 with h | h
    · have h1 := foldl_max_ge_mem _ 0 st hst
      have h2 : st = 0 := by omega
      rw [h, ← h2]
      exact hst
    · exact h
  · intro C hC hmem hall
    have hge := foldl_max_ge_mem _ 0 C hmem
    rcases foldl_max_init_or_mem (completion_statuses events) 0 with h | h
    · omega
    · rcases hall _ h with h2 | h2
      · exact h2
      · omega

/-- C1 (amended), at a concrete session: three brokers, rank 1 exits with code 7,
the others with 0; the session returns 7. -/
theorem start_session_aggregate_exit_code_witness :
    session_setup sample_opts sample_world 3 none "flux-broker" = .ok (sample_session 3) ∧
    start_session sample_opts sample_world 3 none "flux-broker" sample_exit_code_run = .ok 7 ∧
    ∃ rc, start_session sample_opts sample_world 3 none "flux-broker" sample_exit_code_run
        = .ok rc ∧
      rc = (completion_statuses sample_exit_code_run).foldl max 0 ∧
      0 ≤ rc ∧
      (∀ st ∈ completion_statuses sample_exit_code_run, st ≤ rc) ∧
      (rc = 0 ∨ rc ∈ completion_statuses sample_exit_code_run) ∧
      ((∃ st ∈ completion_statuses sample_exit_code_run, 0 ≤ st) →
        (completion_statuses sample_exit_code_run).maximum = (rc : WithBot Int)) ∧
      (∀ C : Int, 0 < C → C ∈ completion_statuses sample_exit_code_run →
        (∀ st ∈ completion_statuses sample_exit_code_run, st = C ∨ st = 0) → rc = C) :=
  ⟨rfl, rfl, start_session_aggregate_exit_code sample_opts sample_world 3 none "flux-broker"
    (sample_session 3) sample_exit_code_run rfl⟩

/-- C2: the completion callback takes the exit code as status when the exit code
query is not negative, and `128 + S` when the process was terminated by signal `S`
(exit code query negative, signal query `S ≥ 0`); the callback raises the
aggregate to at least that status, and a session in which every other completion
status is smaller than `128 + S` returns `128 + S`. -/
theorem completion_status_shell_encoding (opts : optparse_t) (w : World) (test_size : Int)
    (cmd_argz : Option (List String)) (broker_path : String) (s : Session)
    (pre post : List Event) (cli : client) (exit_code S : Int) (ctx : Ctx)
    (code signaled : Int)
    (hsetup : session_setup opts w test_size cmd_argz broker_path = .ok s)
    (hexit : exit_code < 0) (hS : 0 ≤ S)
    (hsib : ∀ st ∈ completion_statuses (pre ++ post), st < 128 + S) :
    (0 ≤ code → completion_rc code signaled = code) ∧
    completion_rc exit_code S = 128 + S ∧
    (completion_cb ctx cli exit_code S).exit_rc = max ctx.exit_rc (128 + S) ∧
    start_session opts w test_size cmd_argz broker_path
      (pre ++ Event.completion cli exit_code S :: post) = .ok (128 + S) := by
  have hrc : completion_rc exit_code S = 128 + S := by
    unfold completion_rc
    rw [if_pos hexit, if_pos hS]
    ring
  refine ⟨?_, hrc, ?_, ?_⟩
  · intro hcode
    unfold completion_rc
    rw [if_neg (not_lt.mpr hcode)]
  · rw [completion_cb_exit_rc, hrc]
  · rw [start_session_returns _ _ _ _ _ _ _ hsetup]
    have hub := fun st hst => foldl_max_ge_mem
      (completion_statuses (pre ++ Event.completion cli exit_code S :: post)) 0 st hst
    have hmem := foldl_max_init_or_mem
      (completion_statuses (pre ++ Event.completion cli exit_code S :: post)) 0
    generalize List.foldl max 0
      (completion_statuses (pre ++ Event.completion cli exit_code S :: post)) = rc at hub hmem ⊢
    have hst : completion_statuses (pre ++ Event.completion cli exit_code S :: post)
        = completion_statuses pre ++ (128 + S) :: completion_statuses post := by
      rw [completion_statuses_append]
      simp [completion_statuses, hrc]
    rw [hst] at hub hmem
    rw [completion_statuses_append] at hsib
    have hge : 128 + S ≤ rc := hub _ (by simp)
    congr 1
    rcases hmem with h | h
    · omega
    · rcases List.mem_append.mp h with h1 | h1
      · have := hsib rc (List.mem_append_left _ h1)
        omega
      · rcases List.mem_cons.mp h1 with h2 | h2
        · exact h2
        · have := hsib rc (List.mem_append_right _ h2)
          omega

/-- C2, at a concrete session: of three brokers, rank 1 is killed by signal 9 and
the others exit with codes 3 and 0; the session returns 137. -/
theorem completion_status_shell_encoding_witness :
    session_setup sample_opts sample_world 3 none "flux-broker" = .ok (sample_session 3) ∧
    ((-1 : Int) < 0 ∧ (0 : Int) ≤ 9) ∧
    (∀ st ∈ completion_statuses ([Event.completion (sample_client 3 0) 3 (-1)] ++
        [Event.completion (sample_client 3 2) 0 (-1)]), st < 128 + 9) ∧
    ((0 ≤ (3 : Int) → completion_rc 3 (-1) = 3) ∧
     completion_rc (-1) 9 = 128 + 9 ∧
     (completion_cb (sample_session 3).ctx (sample_client 3 1) (-1) 9).exit_rc
        = max (sample_session 3).ctx.exit_rc (128 + 9) ∧
     start_session sample_opts sample_world 3 none "flux-broker"
        ([Event.completion (sample_client 3 0) 3 (-1)] ++
          Event.completion (sample_client 3 1) (-1) 9 ::
            [Event.completion (sample_client 3 2) 0 (-1)]) = .ok (128 + 9)) :=
  ⟨rfl, by decide, by decide,
    completion_status_shell_encoding sample_opts sample_world 3 none "flux-broker"
      (sample_session 3) [Event.completion (sample_client 3 0) 3 (-1)]
      [Event.completion (sample_client 3 2) 0 (-1)] (sample_client 3 1) (-1) 9
      (sample_session 3).ctx 3 (-1) rfl (by decide) (by decide) (by decide)⟩

/-- C3 (code evaluated at the failing input): in the sample session of one broker
that fails to start, the `FAILED` state change empties the live-set, yet
`start_session` returns 0.  For comparison, when the broker cannot be spawned at
all the program ends through `log_err_exit ("flux_exec")`. -/
theorem start_session_failed_start_returns_zero :
    session_setup sample_opts sample_world 1 none "flux-broker" = .ok (sample_session 1) ∧
    (sample_session 1).ctx.clients = [sample_client 1 0] ∧
    (flux_reactor_run (sample_session 1) sample_failed_start_run).ctx.clients = [] ∧
    (flux_reactor_run (sample_session 1) sample_failed_start_run).ctx.count = 0 ∧
    start_session sample_opts sample_world 1 none "flux-broker" sample_failed_start_run
      = .ok 0 ∧
    start_session sample_opts sample_failing_world 1 none "flux-broker" []
      = .error Fatal.flux_exec :=
  ⟨rfl, rfl, rfl, rfl, rfl, rfl⟩

/-- C4: in a state with live count `c ≥ 1` whose live-set contains `cli`, the
completion callback for `cli` leaves live count `c - 1`, the kill timer armed if
`c - 1 > 0` and disarmed if `c - 1 = 0`, and the live-set with the first (on a
duplicate-free live-set: the only) occurrence of `cli` removed and every other
client kept in place. -/
theorem completion_cb_bookkeeping (ctx : Ctx) (cli : client) (exit_code signaled c : Int)
    (hcount : ctx.count = c) (hc : 1 ≤ c) (hmem : cli ∈ ctx.clients) :
    (completion_cb ctx cli exit_code signaled).count = c - 1 ∧
    0 ≤ (completion_cb ctx cli exit_code signaled).count ∧
    (0 < c - 1 → (completion_cb ctx cli exit_code signaled).timer = true) ∧
    (c - 1 = 0 → (completion_cb ctx cli exit_code signaled).timer = false) ∧
    (∃ l1 l2, ctx.clients = l1 ++ cli :: l2 ∧ cli ∉ l1 ∧
      (completion_cb ctx cli exit_code signaled).clients = l1 ++ l2) ∧
    (ctx.clients.Nodup →
      cli ∉ (completion_cb ctx cli exit_code signaled).clients ∧
      ∀ x, x ∈ (completion_cb ctx cli exit_code signaled).clients ↔
        x ∈ ctx.clients ∧ x ≠ cli) := by
  refine ⟨?_, ?_, ?_, ?_, ?_, ?_⟩
  · rw [completion_cb_count, hcount]
  · rw [completion_cb_count, hcount]
    omega
  · intro h
    rw [completion_cb_timer, hcount]
    exact decide_eq_true h
  · intro h
    rw [completion_cb_timer, hcount]
    exact decide_eq_false (by omega)
  · rw [completion_cb_clients]
    exact erase_split ctx.clients cli hmem
  · intro hnd
    rw [completion_cb_clients]
    refine ⟨hnd.not_mem_erase, ?_⟩
    intro x
    rw [hnd.mem_erase_iff]
    exact and_comm

/-- C4, at a concrete state: completion of rank 1 in the sample session of three
brokers. -/
theorem completion_cb_bookkeeping_witness :
    ((sample_session 3).ctx.count = 3 ∧ (1 : Int) ≤ 3 ∧
      sample_client 3 1 ∈ (sample_session 3).ctx.clients) ∧
    (completion_cb (sample_session 3).ctx (sample_client 3 1) 0 (-1)).count = 3 - 1 ∧
    (completion_cb (sample_session 3).ctx (sample_client 3 1) 0 (-1)).timer = true ∧
    (completion_cb (sample_session 3).ctx (sample_client 3 1) 0 (-1)).clients
      = [sample_client 3 0, sample_client 3 2] := by
  have h := completion_cb_bookkeeping (sample_session 3).ctx (sample_client 3 1) 0 (-1) 3
    rfl (by decide) (by decide)
  exact ⟨⟨rfl, by decide, by decide⟩, h.1, h.2.2.1 (by decide), rfl⟩

/-- C5: for `FAILED` the state-change callback changes live count, kill timer and
live-set exactly as the completion callback does for the same client (decrement,
arm if still positive else disarm, remove the client); for `EXITED` (and any state
other than `FAILED`) it leaves the whole state unchanged, so an `EXITED` state
change followed by the completion decrements and removes the client once. -/
theorem state_cb_bookkeeping (ctx : Ctx) (cli : client) (exit_code signaled : Int) :
    (state_cb ctx cli FLUX_SUBPROCESS_FAILED).count
      = (completion_cb ctx cli exit_code signaled).count ∧
    (state_cb ctx cli FLUX_SUBPROCESS_FAILED).timer
      = (completion_cb ctx cli exit_code signaled).timer ∧
    (state_cb ctx cli FLUX_SUBPROCESS_FAILED).clients
      = (completion_cb ctx cli exit_code signaled).clients ∧
    (state_cb ctx cli FLUX_SUBPROCESS_FAILED).count = ctx.count - 1 ∧
    (state_cb ctx cli FLUX_SUBPROCESS_FAILED).timer = decide (ctx.count - 1 > 0) ∧
    (state_cb ctx cli FLUX_SUBPROCESS_FAILED).clients = zlist_remove ctx.clients cli ∧
    state_cb ctx cli FLUX_SUBPROCESS_EXITED = ctx ∧
    state_cb ctx cli FLUX_SUBPROCESS_INIT = ctx ∧
    state_cb ctx cli FLUX_SUBPROCESS_RUNNING = ctx ∧
    completion_cb (state_cb ctx cli FLUX_SUBPROCESS_EXITED) cli exit_code signaled
      = completion_cb ctx cli exit_code signaled ∧
    (completion_cb (state_cb ctx cli FLUX_SUBPROCESS_EXITED) cli exit_code signaled).count
      = ctx.count - 1 ∧
    (completion_cb (state_cb ctx cli FLUX_SUBPROCESS_EXITED) cli exit_code signaled).clients
      = zlist_remove ctx.clients cli := by
  have hF : state_cb ctx cli FLUX_SUBPROCESS_FAILED = departure ctx cli := by
    unfold state_cb
    rw [if_pos rfl]
  have hE : state_cb ctx cli FLUX_SUBPROCESS_EXITED = ctx := by
    unfold state_cb
    rw [if_neg (by decide)]
  rw [hF, hE, completion_cb_count, completion_cb_timer, completion_cb_clients,
    departure_count, departure_timer, departure_clients]
  refine ⟨rfl, rfl, rfl, rfl, rfl, rfl, rfl, ?_, ?_, rfl, rfl, rfl⟩
  · unfold state_cb
    rw [if_neg (by decide)]
  · unfold state_cb
    rw [if_neg (by decide)]

theorem dispatch_departure (s : Session) (e : Event) (cli : client)
    (h : departing_client e = some cli) :
    (dispatch s e).ctx = departure
      (match e with
       | .completion _ exit_code signaled =>
         if completion_rc exit_code signaled > s.ctx.exit_rc
         then { s.ctx with exit_rc := completion_rc exit_code signaled } else s.ctx
       | _ => s.ctx) cli := by
  cases e with
  | completion c exit_code signaled =>
    simp only [departing_client, Option.some.injEq] at h
    subst h
    rfl
  | state_change c state =>
    simp only [departing_client] at h
    split at h
    · rename_i hst
      cases h
      simp only [dispatch, state_cb, hst, if_true]
    · cases h
  | timer_expired => simp [departing_client] at h

theorem dispatch_departure_count (s : Session) (e : Event)
    (h : (departing_client e).isSome) :
    (dispatch s e).ctx.count = s.ctx.count - 1 ∧
    (dispatch s e).ctx.timer = decide (s.ctx.count - 1 > 0) := by
  obtain ⟨cli, hcli⟩ := Option.isSome_iff_exists.mp h
  rw [dispatch_departure s e cli hcli, departure_count, departure_timer]
  cases e with
  | completion c exit_code signaled =>
    dsimp only
    split <;> exact ⟨rfl, rfl⟩
  | state_change c state => exact ⟨rfl, rfl⟩
  | timer_expired => exact ⟨rfl, rfl⟩

theorem run_departures_count (s : Session) (events : List Event)
    (h : ∀ e ∈ events, (departing_client e).isSome) :
    (flux_reactor_run s events).ctx.count = s.ctx.count - (events.length : Int) := by
  induction events generalizing s with
  | nil => simp [flux_reactor_run]
  | cons e rest ih =>
    rw [flux_reactor_run_cons, ih _ (fun x hx => h x (List.mem_cons_of_mem _ hx)),
      (dispatch_departure_count s e (h e (List.mem_cons_self _ _))).1]
    simp only [List.length_cons]
    push_cast
    ring

theorem run_departures_timer (s : Session) (events : List Event) (hne : events ≠ [])
    (h : ∀ e ∈ events, (departing_client e).isSome) :
    (flux_reactor_run s events).ctx.timer
      = decide ((flux_reactor_run s events).ctx.count > 0) := by
  obtain ⟨init, last, rfl⟩ : ∃ init last, events = init ++ [last] :=
    ⟨events.dropLast, events.getLast hne, (List.dropLast_append_getLast hne).symm⟩
  have hlast : (departing_client last).isSome := h last (by simp)
  rw [flux_reactor_run_append]
  have hd := dispatch_departure_count (flux_reactor_run s init) last hlast
  show (dispatch (flux_reactor_run s init) last).ctx.timer
    = decide ((dispatch (flux_reactor_run s init) last).ctx.count > 0)
  rw [hd.1, hd.2]

theorem departures_length_le (live : List client) (events : List Event)
    (hseq : DepartureSeq live events) : events.length ≤ live.length := by
  obtain ⟨hall, hnd, hsub⟩ := hseq
  have hlen : (events.filterMap departing_client).length = events.length := by
    clear hnd hsub
    induction events with
    | nil => rfl
    | cons e rest ih =>
      obtain ⟨cli, hcli⟩ := Option.isSome_iff_exists.mp (hall e (List.mem_cons_self _ _))
      rw [List.filterMap_cons_some hcli, List.length_cons, List.length_cons,
        ih (fun x hx => hall x (List.mem_cons_of_mem _ hx))]
  rw [← hlen]
  exact (List.subperm_of_subset hnd hsub).length_le

/-- C6: from a session with `N` spawned clients, live count `N` and the kill timer
disarmed, after every non-empty sequence of departures (completions or `FAILED`
state changes, each of a distinct live client; so `N ≥ 1`) and no timer expiry, the
live count is `N` minus the number of departures, between 0 and `N - 1`; the timer
is armed exactly when the live count is positive and disarmed when it is zero; and
for `N = 1` the timer is disarmed at every point of the run, the start included. -/
theorem kill_timer_lifecycle (s : Session) (N : Int) (events : List Event)
    (hcount : s.ctx.count = N) (hlive : (s.ctx.clients.length : Int) = N)
    (htimer : s.ctx.timer = false) (hne : events ≠ [])
    (hseq : DepartureSeq s.ctx.clients events) :
    1 ≤ N ∧
    (flux_reactor_run s events).ctx.count = N - (events.length : Int) ∧
    0 ≤ (flux_reactor_run s events).ctx.count ∧
    (flux_reactor_run s events).ctx.count < N ∧
    ((flux_reactor_run s events).ctx.timer = true ↔ 0 < (flux_reactor_run s events).ctx.count) ∧
    ((flux_reactor_run s events).ctx.count = 0 →
      (flux_reactor_run s events).ctx.timer = false) ∧
    (N = 1 → ∀ k : Nat, (flux_reactor_run s (events.take k)).ctx.timer = false) := by
  have hc := run_departures_count s events hseq.1
  have ht := run_departures_timer s events hne hseq.1
  have hle : (events.length : Int) ≤ N := by
    rw [← hlive]
    exact_mod_cast departures_length_le _ _ hseq
  have hpos : (0 : Int) < events.length := by
    have : 0 < events.length := List.length_pos.mpr hne
    exact_mod_cast this
  rw [hcount] at hc
  refine ⟨by omega, hc, by omega, by omega, ?_, ?_, ?_⟩
  · rw [ht]
    simp
  · intro h0
    rw [ht, h0]
    rfl
  · intro h1 k
    by_cases hk : events.take k = []
    · rw [hk]
      exact htimer
    · have hall : ∀ e ∈ events.take k, (departing_client e).isSome :=
        fun e he => hseq.1 e (List.mem_of_mem_take he)
      have hck := run_departures_count s (events.take k) hall
      have hkpos : (0 : Int) < (events.take k).length := by
        have : 0 < (events.take k).length := List.length_pos.mpr hk
        exact_mod_cast this
      rw [run_departures_timer s (events.take k) hk hall]
      exact decide_eq_false (by omega)

/-- C6, at a concrete run: in the sample session of three brokers, rank 1 completes
and rank 0 fails. -/
theorem kill_timer_lifecycle_witness :
    session_setup sample_opts sample_world 3 none "flux-broker" = .ok (sample_session 3) ∧
    ((sample_session 3).ctx.count = 3 ∧ ((sample_session 3).ctx.clients.length : Int) = 3 ∧
      (sample_session 3).ctx.timer = false ∧ sample_departures ≠ [] ∧
      DepartureSeq (sample_session 3).ctx.clients sample_departures) ∧
    (flux_reactor_run (sample_session 3) sample_departures).ctx.count = 1 ∧
    (flux_reactor_run (sample_session 3) sample_departures).ctx.timer = true := by
  have hseq : DepartureSeq (sample_session 3).ctx.clients sample_departures := by
    unfold DepartureSeq
    decide
  have h := kill_timer_lifecycle (sample_session 3) 3 sample_departures rfl rfl rfl
    (by decide) hseq
  exact ⟨rfl, ⟨rfl, rfl, rfl, by decide, hseq⟩, h.2.1, h.2.2.2.2.1.mpr (by rw [h.2.1]; decide)⟩

/-- C7: the timer callback `killer` calls `flux_subprocess_kill (cli->p, SIGKILL)`
once for each client of the live-set, in list order, and nothing else: the kill
calls made are those for the live-set, `ctx` is unchanged.  When the kill timer
expires while armed, the reactor step makes exactly these calls and leaves
live-set, live count and aggregate exit code unchanged.  In the sample session of
three brokers, after rank 0 has completed, the expiry kills ranks 1 and 2 (pids 101
and 102) and both stay in the live-set. -/
theorem killer_kills_live_set (s : Session) :
    SIGKILL = 9 ∧
    (killer s).kills = s.kills ++ s.ctx.clients.map (fun cli => (cli.p, SIGKILL)) ∧
    ((killer s).kills.drop s.kills.length).length = s.ctx.clients.length ∧
    (killer s).ctx = s.ctx ∧
    (dispatch s Event.timer_expired).kills
      = (if s.ctx.timer then s.kills ++ s.ctx.clients.map (fun cli => (cli.p, SIGKILL))
         else s.kills) ∧
    (dispatch s Event.timer_expired).ctx.clients = s.ctx.clients ∧
    (dispatch s Event.timer_expired).ctx.count = s.ctx.count ∧
    (dispatch s Event.timer_expired).ctx.exit_rc = s.ctx.exit_rc ∧
    (flux_reactor_run (sample_session 3) sample_kill_run).kills
      = [(some { pid := 101 }, SIGKILL), (some { pid := 102 }, SIGKILL)] ∧
    (flux_reactor_run (sample_session 3) sample_kill_run).ctx.clients
      = [sample_client 3 1, sample_client 3 2] ∧
    (flux_reactor_run (sample_session 3) sample_kill_run).ctx.count = 2 := by
  have hk : (killer s).kills = s.kills ++ s.ctx.clients.map (fun cli => (cli.p, SIGKILL)) := by
    unfold killer
    exact killer_loop_eq _ _
  refine ⟨rfl, hk, ?_, rfl, ?_, ?_, ?_, ?_, rfl, rfl, rfl⟩
  · rw [hk]
    simp
  · unfold dispatch
    dsimp only
    split
    · unfold killer
      exact killer_loop_eq _ _
    · rfl
  · unfold dispatch
    dsimp only
    split <;> rfl
  · unfold dispatch
    dsimp only
    split <;> rfl
  · unfold dispatch
    dsimp only
    split <;> rfl

theorem dispatch_exit_zero (ctx : Ctx) (cli : client) (signaled : Int)
    (hrc : ctx.exit_rc = 0) (hcount : ctx.count = (ctx.clients.length : Int))
    (hmem : cli ∈ ctx.clients) :
    (completion_cb ctx cli 0 signaled).exit_rc = 0 ∧
    (completion_cb ctx cli 0 signaled).count
      = ((completion_cb ctx cli 0 signaled).clients.length : Int) ∧
    ((completion_cb ctx cli 0 signaled).clients = [] →
      (completion_cb ctx cli 0 signaled).timer = false) := by
  have hlen : (ctx.clients.erase cli).length = ctx.clients.length - 1 :=
    List.length_erase_of_mem hmem
  have hpos : 0 < ctx.clients.length := List.length_pos_of_mem hmem
  refine ⟨?_, ?_, ?_⟩
  · rw [completion_cb_exit_rc, hrc]
    simp [completion_rc]
  · rw [completion_cb_count, completion_cb_clients, hlen, hcount]
    omega
  · intro hnil
    rw [completion_cb_clients] at hnil
    rw [completion_cb_timer, hcount]
    have : (ctx.clients.erase cli).length = 0 := by rw [hnil]; rfl
    exact decide_eq_false (by omega)

theorem run_all_exit_zero (s : Session) (events : List Event)
    (hrc : s.ctx.exit_rc = 0) (hcount : s.ctx.count = (s.ctx.clients.length : Int))
    (htimer : s.ctx.clients = [] → s.ctx.timer = false)
    (hrun : AllExitZero s.ctx.clients events) :
    (flux_reactor_run s events).ctx.exit_rc = 0 ∧
    (flux_reactor_run s events).ctx.clients = [] ∧
    (flux_reactor_run s events).ctx.count = 0 ∧
    (flux_reactor_run s events).ctx.timer = false := by
  induction events generalizing s with
  | nil =>
    have hnil : s.ctx.clients = [] := List.Perm.eq_nil (List.Perm.symm hrun.2)
    refine ⟨hrc, hnil, ?_, htimer hnil⟩
    show s.ctx.count = 0
    rw [hcount, hnil]
    rfl
  | cons e rest ih =>
    obtain ⟨hall, hperm⟩ := hrun
    rw [flux_reactor_run_cons]
    have he := hall e (List.mem_cons_self _ _)
    have hcases : (∃ cli, e = Event.state_change cli FLUX_SUBPROCESS_EXITED) ∨
        (∃ cli signaled, e = Event.completion cli 0 signaled) := by
      cases e with
      | completion cli exit_code signaled =>
        simp only [exits_zero, decide_eq_true_eq] at he
        exact Or.inr ⟨cli, signaled, by rw [he]⟩
      | state_change cli state =>
        simp only [exits_zero, decide_eq_true_eq] at he
        exact Or.inl ⟨cli, by rw [he]⟩
      | timer_expired => simp [exits_zero] at he
    rcases hcases with ⟨cli, rfl⟩ | ⟨cli, signaled, rfl⟩
    · have hd : dispatch s (Event.state_change cli FLUX_SUBPROCESS_EXITED) = s := by
        simp [dispatch, state_cb]
      rw [hd]
      exact ih s hrc hcount htimer ⟨fun x hx => hall x (List.mem_cons_of_mem _ hx), hperm⟩
    · have hmem : cli ∈ s.ctx.clients :=
        hperm.subset (List.mem_cons_self _ _)
      obtain ⟨h1, h2, h3⟩ := dispatch_exit_zero s.ctx cli signaled hrc hcount hmem
      apply ih (dispatch s (Event.completion cli 0 signaled)) h1 h2 h3
      refine ⟨fun x hx => hall x (List.mem_cons_of_mem _ hx), ?_⟩
      show (completed_clients rest).Perm (completion_cb s.ctx cli 0 signaled).clients
      rw [completion_cb_clients]
      have := List.Perm.erase cli hperm
      simpa [completed_clients] using this

/-- C8: a session that spawns `N ≥ 1` workers, all of which exit normally with code
0 (the reactor delivers `EXITED` state changes and, once per client and in any
order, completions with exit code 0), returns 0 from `start_session` and ends with
aggregate exit code 0, an empty live-set, live count 0 and the kill timer disarmed. -/
theorem all_workers_exit_zero (opts : optparse_t) (w : World) (test_size : Int)
    (cmd_argz : Option (List String)) (broker_path : String) (s : Session)
    (events : List Event)
    (hN : 1 ≤ test_size) (hexec : opts.noexec = false)
    (hsetup : session_setup opts w test_size cmd_argz broker_path = .ok s)
    (hrun : AllExitZero s.ctx.clients events) :
    (s.ctx.clients.length : Int) = test_size ∧
    s.ctx.count = test_size ∧
    start_session opts w test_size cmd_argz broker_path events = .ok 0 ∧
    (flux_reactor_run s events).ctx.exit_rc = 0 ∧
    (flux_reactor_run s events).ctx.clients = [] ∧
    (flux_reactor_run s events).ctx.count = 0 ∧
    (flux_reactor_run s events).ctx.timer = false := by
  obtain ⟨d, hosts, _, _, _, _, htimer, hrc, _, _, hcl, hcount, _⟩ :=
    session_setup_ok _ _ _ _ _ _ hsetup
  have hfin := run_all_exit_zero s events hrc hcount (fun _ => htimer) hrun
  have hlen : (s.ctx.clients.length : Int) = test_size := by
    rw [hcl, hexec]
    simp only [Bool.false_eq_true, if_false, List.length_map, List.length_range]
    omega
  refine ⟨hlen, by rw [hcount, hlen], ?_, hfin⟩
  unfold start_session
  rw [hsetup]
  dsimp only
  rw [hfin.1]

/-- C8, at a concrete run: two brokers whose `EXITED` state changes and completions
arrive interleaved. -/
theorem all_workers_exit_zero_witness :
    ((1 : Int) ≤ 2 ∧ sample_opts.noexec = false ∧
      session_setup sample_opts sample_world 2 none "flux-broker" = .ok (sample_session 2) ∧
      AllExitZero (sample_session 2).ctx.clients sample_exit_zero_run) ∧
    start_session sample_opts sample_world 2 none "flux-broker" sample_exit_zero_run = .ok 0 ∧
    (flux_reactor_run (sample_session 2) sample_exit_zero_run).ctx.clients = [] ∧
    (flux_reactor_run (sample_session 2) sample_exit_zero_run).ctx.count = 0 ∧
    (flux_reactor_run (sample_session 2) sample_exit_zero_run).ctx.timer = false := by
  have hrun : AllExitZero (sample_session 2).ctx.clients sample_exit_zero_run := by
    refine ⟨by decide, ?_⟩
    · exact List.Perm.swap _ _ _
  have h := all_workers_exit_zero sample_opts sample_world 2 none "flux-broker"
    (sample_session 2) sample_exit_zero_run (by decide) rfl rfl hrun
  exact ⟨⟨by decide, rfl, rfl, hrun⟩, h.2.2.1, h.2.2.2.2.1, h.2.2.2.2.2.1, h.2.2.2.2.2.2⟩


/-- C9: `client_create` builds the argument vector as the wrapper arguments, the
broker path, the option `--setattr=rundir=<scratch dir>`, the extra broker options
and, for rank 0 only, the user command (nothing when no command was supplied), in
this order; for a rank other than 0 the vector ends with the broker options and is
the rank-0 vector without the trailing command. -/
theorem client_create_argument_vector (opts : optparse_t) (environ : List (String × String))
    (test_size : Int) (broker_path scratch_dir : String) (rank : Int)
    (cmd_argz : Option (List String)) (h0 h : Option String) (hrank : rank ≠ 0) :
    (client_create opts environ test_size broker_path scratch_dir 0 cmd_argz h0).cmd.argv
      = opts.wrap ++ [broker_path] ++ ["--setattr=rundir=" ++ scratch_dir] ++ opts.broker_opts
          ++ cmd_argz.getD [] ∧
    (client_create opts environ test_size broker_path scratch_dir rank cmd_argz h).cmd.argv
      = opts.wrap ++ [broker_path] ++ ["--setattr=rundir=" ++ scratch_dir] ++ opts.broker_opts ∧
    (client_create opts environ test_size broker_path scratch_dir 0 cmd_argz h0).cmd.argv
      = (client_create opts environ test_size broker_path scratch_dir rank cmd_argz h).cmd.argv
          ++ cmd_argz.getD [] := by
  rw [client_create_argv_eq, client_create_argv_eq, client_argz_eq, client_argz_eq]
  simp [hrank]

/-- C9, at a concrete client: rank 0 and rank 2 of a session started with wrapper
`strace`, broker option `-v` and command `sleep 1`. -/
theorem client_create_argument_vector_witness :
    (2 : Int) ≠ 0 ∧
    (client_create sample_hosts_opts sample_world.environ 3 "flux-broker" "/run/fx" 0
        (some ["sleep", "1"]) (some "n0")).cmd.argv
      = ["strace", "flux-broker", "--setattr=rundir=/run/fx", "-v", "sleep", "1"] ∧
    (client_create sample_hosts_opts sample_world.environ 3 "flux-broker" "/run/fx" 2
        (some ["sleep", "1"]) (some "n2")).cmd.argv
      = ["strace", "flux-broker", "--setattr=rundir=/run/fx", "-v"] := by
  have h := client_create_argument_vector sample_hosts_opts sample_world.environ 3
    "flux-broker" "/run/fx" 2 (some ["sleep", "1"]) (some "n0") (some "n2") (by decide)
  exact ⟨by decide, h.1, h.2.1⟩

theorem getenv_argv (cmd : flux_cmd_t) (argv : List String) (name : String) :
    flux_cmd_getenv { cmd with argv := argv } name = flux_cmd_getenv cmd name := rfl

theorem client_create_getenv (opts : optparse_t) (environ : List (String × String))
    (test_size : Int) (broker_path scratch_dir : String) (rank : Int)
    (cmd_argz : Option (List String)) (h : Option String) :
    flux_cmd_getenv (client_create opts environ test_size broker_path scratch_dir rank
      cmd_argz h).cmd "PMI_RANK" = some (toString rank) ∧
    flux_cmd_getenv (client_create opts environ test_size broker_path scratch_dir rank
      cmd_argz h).cmd "PMI_SIZE" = some (toString test_size) ∧
    flux_cmd_getenv (client_create opts environ test_size broker_path scratch_dir rank
      cmd_argz h).cmd "FLUX_START_URI" = some ("local://" ++ scratch_dir ++ "/start") ∧
    flux_cmd_getenv (client_create opts environ test_size broker_path scratch_dir rank
      cmd_argz h).cmd "FLUX_FAKE_HOSTNAME"
      = (match h with
         | some host => some host
         | none => flux_cmd_getenv (flux_cmd_create environ) "FLUX_FAKE_HOSTNAME") := by
  unfold client_create
  dsimp only
  rw [argv_append_fold]
  cases h with
  | none =>
    dsimp only
    refine ⟨?_, ?_, ?_, ?_⟩
    · rw [getenv_setenvf_other _ _ _ _ (by decide), getenv_setenvf_other _ _ _ _ (by decide),
        getenv_setenvf_same]
    · rw [getenv_setenvf_other _ _ _ _ (by decide), getenv_setenvf_same]
    · rw [getenv_setenvf_same]
    · rw [getenv_setenvf_other _ _ _ _ (by decide), getenv_setenvf_other _ _ _ _ (by decide),
        getenv_setenvf_other _ _ _ _ (by decide)]
      rfl
  | some host =>
    dsimp only
    refine ⟨?_, ?_, ?_, ?_⟩
    · rw [getenv_setenvf_other _ _ _ _ (by decide), getenv_setenvf_other _ _ _ _ (by decide),
        getenv_setenvf_other _ _ _ _ (by decide), getenv_setenvf_same]
    · rw [getenv_setenvf_other _ _ _ _ (by decide), getenv_setenvf_other _ _ _ _ (by decide),
        getenv_setenvf_same]
    · rw [getenv_setenvf_other _ _ _ _ (by decide), getenv_setenvf_same]
    · rw [getenv_setenvf_same]

theorem decode_test_hosts_ok (opts : optparse_t) (w : World) (test_size : Int)
    (hosts : Option (List String))
    (hok : decode_test_hosts opts w test_size = .ok hosts) :
    (opts.test_hosts = none ∧ hosts = none) ∨
    (∃ str hl, opts.test_hosts = some str ∧ w.hostlist_decode str = some hl ∧
      (hl.length : Int) = test_size ∧ hosts = some hl) := by
  unfold decode_test_hosts at hok
  cases hth : opts.test_hosts with
  | none =>
    rw [hth] at hok
    cases hok
    exact Or.inl ⟨rfl, rfl⟩
  | some str =>
    rw [hth] at hok
    dsimp only at hok
    cases hdec : w.hostlist_decode str with
    | none => rw [hdec] at hok; cases hok
    | some hl =>
      rw [hdec] at hok
      dsimp only at hok
      split at hok
      · cases hok
      · rename_i hlen
        cases hok
        exact Or.inr ⟨str, hl, rfl, hdec, not_not.mp hlen, rfl⟩

/-- C10: in a session of `test_size` brokers that was set up with scratch directory
`d`, the client of every rank `r < test_size` carries in its environment `PMI_RANK`
= decimal `r`, `PMI_SIZE` = decimal `test_size` and `FLUX_START_URI` =
`local://d/start`, the URI of the path `d/start` on which `start_server_initialize`
bound the control service.  Without `--test-hosts`, `client_create` does not set
`FLUX_FAKE_HOSTNAME` (its binding is the one inherited from `environ`); with
`--test-hosts` it is set to the `r`-th entry of the decoded hostlist. -/
theorem client_environment (opts : optparse_t) (w : World) (test_size : Int)
    (cmd_argz : Option (List String)) (broker_path : String) (s : Session) (r : Nat)
    (hr : (r : Int) < test_size) (hexec : opts.noexec = false)
    (hsetup : session_setup opts w test_size cmd_argz broker_path = .ok s) :
    ∃ d path cli, scratch_dir_of opts w = some d ∧
      s.ctx.clients[r]? = some cli ∧ cli.rank = (r : Int) ∧
      flux_cmd_getenv cli.cmd "PMI_RANK" = some (toString (r : Int)) ∧
      flux_cmd_getenv cli.cmd "PMI_SIZE" = some (toString test_size) ∧
      flux_cmd_getenv cli.cmd "FLUX_START_URI" = some ("local://" ++ d ++ "/start") ∧
      s.ctx.h = some path ∧ path = d ++ "/start" ∧
      flux_cmd_getenv cli.cmd "FLUX_START_URI" = some ("local://" ++ path) ∧
      (opts.test_hosts = none →
        flux_cmd_getenv cli.cmd "FLUX_FAKE_HOSTNAME"
          = flux_cmd_getenv (flux_cmd_create w.environ) "FLUX_FAKE_HOSTNAME") ∧
      (∀ str, opts.test_hosts = some str →
        ∃ hl host, w.hostlist_decode str = some hl ∧ hl[r]? = some host ∧
          flux_cmd_getenv cli.cmd "FLUX_FAKE_HOSTNAME" = some host) ∧
      (flux_cmd_getenv (flux_cmd_create w.environ) "FLUX_FAKE_HOSTNAME" = none →
        ((flux_cmd_getenv cli.cmd "FLUX_FAKE_HOSTNAME").isSome ↔ opts.test_hosts.isSome)) := by
  obtain ⟨d, hosts, hd, hdec, _, _, _, _, _, hh, hcl, _⟩ :=
    session_setup_ok _ _ _ _ _ _ hsetup
  have hrn : r < test_size.toNat := by omega
  have hget : s.ctx.clients[r]? = some
      (spawned_client opts w test_size broker_path d cmd_argz hosts (r : Int)) := by
    rw [hcl, hexec]
    simp only [Bool.false_eq_true, if_false, List.getElem?_map]
    rw [List.getElem?_range hrn]
    rfl
  obtain ⟨e1, e2, e3, e4⟩ := client_create_getenv opts w.environ test_size broker_path d
    (r : Int) cmd_argz (hostname_arg hosts (r : Int))
  have hcmd : (spawned_client opts w test_size broker_path d cmd_argz hosts (r : Int)).cmd
      = (client_create opts w.environ test_size broker_path d (r : Int) cmd_argz
          (hostname_arg hosts (r : Int))).cmd := rfl
  have hnone : opts.test_hosts = none →
      flux_cmd_getenv (spawned_client opts w test_size broker_path d cmd_argz hosts
        (r : Int)).cmd "FLUX_FAKE_HOSTNAME"
        = flux_cmd_getenv (flux_cmd_create w.environ) "FLUX_FAKE_HOSTNAME" := by
    intro hn
    rcases decode_test_hosts_ok _ _ _ _ hdec with ⟨_, hh2⟩ | ⟨str, hl, hs, _⟩
    · rw [hcmd, e4, hh2]
      rfl
    · rw [hn] at hs
      cases hs
  have hsome : ∀ str, opts.test_hosts = some str →
      ∃ hl host, w.hostlist_decode str = some hl ∧ hl[r]? = some host ∧
        flux_cmd_getenv (spawned_client opts w test_size broker_path d cmd_argz hosts
          (r : Int)).cmd "FLUX_FAKE_HOSTNAME" = some host := by
    intro str hstr
    rcases decode_test_hosts_ok _ _ _ _ hdec with ⟨hn, _⟩ | ⟨str2, hl, hs, hdec2, hlen, hh2⟩
    · rw [hn] at hstr
      cases hstr
    · rw [hstr] at hs
      cases hs
      have hrl : r < hl.length := by omega
      refine ⟨hl, hl[r], hdec2, List.getElem?_eq_getElem hrl, ?_⟩
      rw [hcmd, e4, hh2]
      have hha : hostname_arg (some hl) (r : Int) = some hl[r] := by
        unfold hostname_arg hostlist_nth
        simp [List.getElem?_eq_getElem hrl]
      rw [hha]
  refine ⟨d, d ++ "/start", _, hd, hget, rfl, e1, e2, e3, hh, rfl, ?_, hnone, hsome, ?_⟩
  · rw [hcmd, e3, String.append_assoc]
  · intro henv
    cases hth : opts.test_hosts with
    | none =>
      rw [hnone hth, henv]
    | some str =>
      obtain ⟨hl, host, _, _, hval⟩ := hsome str hth
      rw [hval]
      simp

/-- C10, at a concrete session: rank 2 of three brokers started with scratch
directory `/run/fx` and a hostlist decoding to `n0, n1, n2`. -/
theorem client_environment_witness :
    (((2 : Nat) : Int) < 3 ∧ sample_hosts_opts.noexec = false ∧
      session_setup sample_hosts_opts sample_world 3 (some ["sleep", "1"]) "flux-broker"
        = .ok sample_hosts_session) ∧
    (sample_hosts_session.ctx.clients[2]?).map (fun cli => cli.cmd.env)
      = some [("PATH", "/bin"), ("PMI_RANK", "2"), ("PMI_SIZE", "3"),
          ("FLUX_START_URI", "local:///run/fx/start"), ("FLUX_FAKE_HOSTNAME", "n2")] ∧
    ∃ d path cli, scratch_dir_of sample_hosts_opts sample_world = some d ∧
      sample_hosts_session.ctx.clients[2]? = some cli ∧ cli.rank = ((2 : Nat) : Int) ∧
      flux_cmd_getenv cli.cmd "PMI_RANK" = some (toString ((2 : Nat) : Int)) ∧
      flux_cmd_getenv cli.cmd "PMI_SIZE" = some (toString (3 : Int)) ∧
      flux_cmd_getenv cli.cmd "FLUX_START_URI" = some ("local://" ++ d ++ "/start") ∧
      sample_hosts_session.ctx.h = some path ∧ path = d ++ "/start" ∧
      flux_cmd_getenv cli.cmd "FLUX_START_URI" = some ("local://" ++ path) ∧
      (sample_hosts_opts.test_hosts = none →
        flux_cmd_getenv cli.cmd "FLUX_FAKE_HOSTNAME"
          = flux_cmd_getenv (flux_cmd_create sample_world.environ) "FLUX_FAKE_HOSTNAME") ∧
      (∀ str, sample_hosts_opts.test_hosts = some str →
        ∃ hl host, sample_world.hostlist_decode str = some hl ∧ hl[2]? = some host ∧
          flux_cmd_getenv cli.cmd "FLUX_FAKE_HOSTNAME" = some host) ∧
      (flux_cmd_getenv (flux_cmd_create sample_world.environ) "FLUX_FAKE_HOSTNAME" = none →
        ((flux_cmd_getenv cli.cmd "FLUX_FAKE_HOSTNAME").isSome
          ↔ sample_hosts_opts.test_hosts.isSome)) :=
  ⟨⟨by decide, rfl, rfl⟩, rfl,
    client_environment sample_hosts_opts sample_world 3 (some ["sleep", "1"]) "flux-broker"
      sample_hosts_session 2 (by decide) rfl rfl⟩

/-! ## The bootstrap key-value store -/

theorem zhash_lookup_update_same (kvs : List (String × String)) (key val : String) :
    zhash_lookup (zhash_update kvs key val) key = some val := by
  simp [zhash_lookup, zhash_update, List.find?_cons]

theorem find_filter_other (kvs : List (String × String)) (key other : String)
    (hne : other ≠ key) :
    (kvs.filter (fun kv => kv.1 != other)).find? (fun kv => kv.1 == key)
      = kvs.find? (fun kv => kv.1 == key) := by
  induction kvs with
  | nil => rfl
  | cons a rest ih =>
    by_cases ha : a.1 = key
    · have h1 : (a.1 != other) = true := by
        simp only [bne_iff_ne, ne_eq, ha]
        exact fun h => hne h.symm
      have h2 : (a.1 == key) = true := by simpa using ha
      simp only [List.filter_cons, h1, if_true, List.find?_cons, h2]
    · have h2 : (a.1 == key) = false := by simpa using ha
      rcases Bool.eq_false_or_eq_true (a.1 != other) with h1 | h1
      · simp only [List.filter_cons, h1, if_true, List.find?_cons, h2]
        exact ih
      · simp only [List.filter_cons, h1, Bool.false_eq_true, if_false, List.find?_cons, h2]
        exact ih

theorem zhash_lookup_update_other (kvs : List (String × String)) (key other val : String)
    (hne : other ≠ key) :
    zhash_lookup (zhash_update kvs other val) key = zhash_lookup kvs key := by
  have h1 : (other == key) = false := by simpa using hne
  simp only [zhash_lookup, zhash_update, List.find?_cons, h1]
  rw [find_filter_other kvs key other hne]

theorem pmi_kvs_puts_lookup (ctx : Ctx) (kvsname key : String) (puts : List (String × String))
    (hputs : ∀ kv ∈ puts, kv.1 ≠ key) :
    zhash_lookup (pmi_kvs_puts ctx kvsname puts).pmi_kvs key = zhash_lookup ctx.pmi_kvs key := by
  induction puts generalizing ctx with
  | nil => rfl
  | cons kv rest ih =>
    rw [pmi_kvs_puts, ih _ (fun x hx => hputs x (List.mem_cons_of_mem _ hx))]
    exact zhash_lookup_update_other _ _ _ _ (hputs kv (List.mem_cons_self _ _))

theorem pmi_kvs_get_eq (complete : client → Option String → Int) (ctx : Ctx) (cli : client)
    (kvsname key : String) (hok : 0 ≤ complete cli (zhash_lookup ctx.pmi_kvs key)) :
    pmi_kvs_get complete ctx cli kvsname key
      = ((cli, zhash_lookup ctx.pmi_kvs key), .ok 0) := by
  unfold pmi_kvs_get
  dsimp only
  rw [if_neg (not_lt.mpr hok)]

/-- C11: after `pmi_kvs_put (k, v)`, followed by any puts to other keys, a
`pmi_kvs_get (k)` from any client completes that client's request with `v` and
returns 0; a later put to `k` replaces an earlier one.  A get on a key that is not
in the store (never put, not pre-populated: the store made by
`pmi_server_initialize` holds at most `PMI_process_mapping`) completes the request
with NULL and returns 0 as well.  The completion call is made in every case, and
the only exit of `pmi_kvs_get` is a failing completion call. -/
theorem pmi_kvs_round_trip (complete : client → Option String → Int) (ctx : Ctx)
    (cli : client) (kvsname k v : String) (later : List (String × String))
    (hlater : ∀ kv ∈ later, kv.1 ≠ k) (hcomplete : ∀ val, 0 ≤ complete cli val) :
    (pmi_kvs_put ctx kvsname k v).2 = 0 ∧
    pmi_kvs_get complete (pmi_kvs_puts (pmi_kvs_put ctx kvsname k v).1 kvsname later)
      cli kvsname k = ((cli, some v), .ok 0) ∧
    (∀ v0, pmi_kvs_get complete
      (pmi_kvs_put (pmi_kvs_put ctx kvsname k v0).1 kvsname k v).1 cli kvsname k
        = ((cli, some v), .ok 0)) ∧
    (zhash_lookup ctx.pmi_kvs k = none →
      pmi_kvs_get complete (pmi_kvs_puts ctx kvsname later) cli kvsname k
        = ((cli, none), .ok 0)) ∧
    (∀ opts w ctx0 ctx1, pmi_server_initialize opts w ctx0 = .ok ctx1 →
      (opts.noclique = true ∨ k ≠ "PMI_process_mapping") →
      zhash_lookup ctx1.pmi_kvs k = none) ∧
    (∀ failing : client → Option String → Int,
      (pmi_kvs_get failing ctx cli kvsname k).1 = (cli, zhash_lookup ctx.pmi_kvs k) ∧
      ((pmi_kvs_get failing ctx cli kvsname k).2 = .ok 0 ↔
        0 ≤ failing cli (zhash_lookup ctx.pmi_kvs k))) := by
  refine ⟨rfl, ?_, ?_, ?_, ?_, ?_⟩
  · rw [pmi_kvs_get_eq _ _ _ _ _ (hcomplete _), pmi_kvs_puts_lookup _ _ _ _ hlater]
    show ((cli, zhash_lookup (zhash_update ctx.pmi_kvs k v) k), _) = _
    rw [zhash_lookup_update_same]
  · intro v0
    rw [pmi_kvs_get_eq _ _ _ _ _ (hcomplete _)]
    show ((cli, zhash_lookup (zhash_update _ k v) k), _) = _
    rw [zhash_lookup_update_same]
  · intro hnone
    rw [pmi_kvs_get_eq _ _ _ _ _ (hcomplete _), pmi_kvs_puts_lookup _ _ _ _ hlater, hnone]
  · intro opts w ctx0 ctx1 hinit hkey
    unfold pmi_server_initialize at hinit
    dsimp only at hinit
    split at hinit
    · rename_i hclique
      split at hinit
      · cases hinit
      · cases hinit
        rcases hkey with h | h
        · rw [h] at hclique
          simp at hclique
        · show zhash_lookup (zhash_update [] "PMI_process_mapping" _) k = none
          rw [zhash_lookup_update_other _ _ _ _ (Ne.symm h)]
          rfl
    · cases hinit
      rfl
  · intro failing
    unfold pmi_kvs_get
    dsimp only
    split
    · rename_i hneg
      refine ⟨rfl, ?_⟩
      constructor
      · intro h
        cases h
      · intro h
        omega
    · rename_i hneg
      exact ⟨rfl, fun _ => not_lt.mp hneg, fun _ => rfl⟩

/-- C11, at a concrete store: a put of `b`, a put to another key, then gets of `b`
and of the unset key `c`. -/
theorem pmi_kvs_round_trip_witness :
    ((∀ kv ∈ [("a", "2")], kv.1 ≠ "b") ∧ ∀ val : Option String, (0 : Int) ≤ (fun _ _ => 0)
        (sample_client 2 1) val) ∧
    pmi_kvs_get (fun _ _ => 0)
      (pmi_kvs_puts (pmi_kvs_put sample_kvs_ctx "kvs" "b" "7").1 "kvs" [("a", "2")])
      (sample_client 2 1) "kvs" "b" = ((sample_client 2 1, some "7"), .ok 0) ∧
    pmi_kvs_get (fun _ _ => 0) sample_kvs_ctx (sample_client 2 1) "kvs" "c"
      = ((sample_client 2 1, none), .ok 0) ∧
    pmi_kvs_get (fun _ _ => 0) sample_kvs_ctx (sample_client 2 1) "kvs" "a"
      = ((sample_client 2 1, some "1"), .ok 0) := by
  have h := pmi_kvs_round_trip (fun _ _ => 0) sample_kvs_ctx (sample_client 2 1) "kvs" "b" "7"
    [("a", "2")] (by decide) (fun _ => le_refl 0)
  have hc := pmi_kvs_round_trip (fun _ _ => 0) sample_kvs_ctx (sample_client 2 1) "kvs" "c" ""
    [] (by decide) (fun _ => le_refl 0)
  exact ⟨⟨by decide, fun _ => le_refl 0⟩, h.2.1, hc.2.2.2.1 rfl, rfl⟩

/-! ## Session set-up with the calls it makes -/

theorem spawn_loop_calls_snd (opts : optparse_t) (w : World) (broker_path scratch_dir : String)
    (cmd_argz : Option (List String)) (hosts : Option (List String))
    (n : Nat) (rank : Int) (ctx : Ctx) (calls : List SetupCall) :
    (spawn_loop_calls opts w broker_path scratch_dir cmd_argz hosts n rank ctx calls).2
      = spawn_loop opts w broker_path scratch_dir cmd_argz hosts n rank ctx := by
  induction n generalizing rank ctx calls with
  | zero => rfl
  | succ k ih =>
    unfold spawn_loop_calls spawn_loop
    dsimp only
    cases hno : opts.noexec with
    | true =>
      simp only [if_true]
      exact ih _ _ _
    | false =>
      simp only [Bool.false_eq_true, if_false]
      cases hrun : client_run w (client_create opts w.environ ctx.test_size broker_path
          scratch_dir rank cmd_argz (hostname_arg hosts rank)) with
      | error e => rfl
      | ok cli => exact ih _ _ _

theorem spawn_loop_calls_hosts (opts : optparse_t) (w : World)
    (broker_path scratch_dir : String)
    (cmd_argz : Option (List String)) (hosts : Option (List String))
    (n : Nat) (rank : Int) (ctx : Ctx) (calls : List SetupCall) (r : Int) (h : Option String)
    (hmem : SetupCall.client_create r h ∈
      (spawn_loop_calls opts w broker_path scratch_dir cmd_argz hosts n rank ctx calls).1) :
    SetupCall.client_create r h ∈ calls ∨ h = hostname_arg hosts r := by
  induction n generalizing rank ctx calls with
  | zero => exact Or.inl hmem
  | succ k ih =>
    unfold spawn_loop_calls at hmem
    dsimp only at hmem
    cases hno : opts.noexec with
    | true =>
      simp only [hno, if_true] at hmem
      rcases ih _ _ _ hmem with h1 | h1
      · rcases List.mem_append.mp h1 with h2 | h2
        · exact Or.inl h2
        · simp only [List.mem_singleton, SetupCall.client_create.injEq] at h2
          right
          rw [h2.1, h2.2]
      · exact Or.inr h1
    | false =>
      simp only [hno, Bool.false_eq_true, if_false] at hmem
      have hpre : ∀ x, SetupCall.client_create r h ∈
          calls ++ [SetupCall.client_create rank (hostname_arg hosts rank)] ++ [x] →
          (∀ a b, x ≠ SetupCall.client_create a b) →
          SetupCall.client_create r h ∈ calls ∨ h = hostname_arg hosts r := by
        intro x hx hnot
        rcases List.mem_append.mp hx with h1 | h1
        · rcases List.mem_append.mp h1 with h2 | h2
          · exact Or.inl h2
          · simp only [List.mem_singleton, SetupCall.client_create.injEq] at h2
            right
            rw [h2.1, h2.2]
        · simp only [List.mem_singleton] at h1
          exact absurd h1.symm (hnot _ _)
      cases hrun : client_run w (client_create opts w.environ ctx.test_size broker_path
          scratch_dir rank cmd_argz (hostname_arg hosts rank)) with
      | error e =>
        rw [hrun] at hmem
        exact hpre _ hmem (fun a b hab => by cases hab)
      | ok cli =>
        rw [hrun] at hmem
        rcases ih _ _ _ hmem with h1 | h1
        · exact hpre _ h1 (fun a b hab => by cases hab)
        · exact Or.inr h1

theorem session_setup_calls_snd (opts : optparse_t) (w : World) (test_size : Int)
    (cmd_argz : Option (List String)) (broker_path : String) :
    (session_setup_calls opts w test_size cmd_argz broker_path).2
      = session_setup opts w test_size cmd_argz broker_path := by
  unfold session_setup_calls session_setup
  dsimp only
  split
  · rfl
  · rename_i scratch_dir _
    split
    · rfl
    · rename_i ctx1 _
      split
      · rfl
      · rename_i ctx2 _
        split
        · rfl
        · rename_i hosts _
          have h := spawn_loop_calls_snd opts w broker_path scratch_dir cmd_argz hosts
            ctx2.test_size.toNat 0 ctx2 []
          rw [← h]
          rcases spawn_loop_calls opts w broker_path scratch_dir cmd_argz hosts
            ctx2.test_size.toNat 0 ctx2 [] with ⟨calls, res⟩
          cases res <;> rfl


theorem spawn_loop_calls_all (opts : optparse_t) (w : World)
    (broker_path scratch_dir : String)
    (cmd_argz : Option (List String)) (hosts : Option (List String))
    (n : Nat) (rank : Int) (ctx ctx' : Ctx) (calls : List SetupCall)
    (hok : (spawn_loop_calls opts w broker_path scratch_dir cmd_argz hosts n rank ctx calls).2
      = .ok ctx') :
    (∀ c ∈ calls, c ∈
      (spawn_loop_calls opts w broker_path scratch_dir cmd_argz hosts n rank ctx calls).1) ∧
    ∀ i : Nat, i < n →
      SetupCall.client_create (rank + (i : Int)) (hostname_arg hosts (rank + (i : Int))) ∈
        (spawn_loop_calls opts w broker_path scratch_dir cmd_argz hosts n rank ctx calls).1 := by
  induction n generalizing rank ctx calls with
  | zero =>
    exact ⟨fun c hc => hc, fun i hi => absurd hi (Nat.not_lt_zero i)⟩
  | succ k ih =>
    unfold spawn_loop_calls at hok ⊢
    dsimp only at hok ⊢
    have hstep : ∀ (ctx2 : Ctx) (calls2 : List SetupCall),
        (∀ c ∈ calls, c ∈ calls2) →
        SetupCall.client_create rank (hostname_arg hosts rank) ∈ calls2 →
        (spawn_loop_calls opts w broker_path scratch_dir cmd_argz hosts k (rank + 1) ctx2
          calls2).2 = .ok ctx' →
        (∀ c ∈ calls, c ∈ (spawn_loop_calls opts w broker_path scratch_dir cmd_argz hosts k
          (rank + 1) ctx2 calls2).1) ∧
        ∀ i : Nat, i < k + 1 →
          SetupCall.client_create (rank + (i : Int)) (hostname_arg hosts (rank + (i : Int))) ∈
            (spawn_loop_calls opts w broker_path scratch_dir cmd_argz hosts k (rank + 1) ctx2
              calls2).1 := by
      intro ctx2 calls2 hsub hnew hok2
      obtain ⟨h1, h2⟩ := ih (rank + 1) ctx2 calls2 hok2
      refine ⟨fun c hc => h1 c (hsub c hc), ?_⟩
      intro i hi
      cases i with
      | zero =>
        simp only [Nat.cast_zero, add_zero]
        exact h1 _ hnew
      | succ j =>
        have := h2 j (by omega)
        have heq : rank + ((j + 1 : Nat) : Int) = rank + 1 + (j : Int) := by
          push_cast
          ring
        rw [heq]
        exact this
    cases hno : opts.noexec with
    | true =>
      simp only [hno, if_true] at hok ⊢
      exact hstep _ _ (fun c hc => List.mem_append_left _ hc)
        (List.mem_append_right _ (List.mem_singleton_self _)) hok
    | false =>
      simp only [hno, Bool.false_eq_true, if_false] at hok ⊢
      cases hrun : client_run w (client_create opts w.environ ctx.test_size broker_path
          scratch_dir rank cmd_argz (hostname_arg hosts rank)) with
      | error e =>
        rw [hrun] at hok
        cases hok
      | ok cli =>
        rw [hrun] at hok
        dsimp only at hok ⊢
        exact hstep _ _
          (fun c hc => List.mem_append_left _ (List.mem_append_left _ hc))
          (List.mem_append_left _ (List.mem_append_right _ (List.mem_singleton_self _))) hok

theorem session_setup_calls_stage (opts : optparse_t) (w : World) (test_size : Int)
    (cmd_argz : Option (List String)) (broker_path : String) :
    (∃ e, session_setup_calls opts w test_size cmd_argz broker_path = ([], .error e)) ∨
    (∃ d ctx2 hosts, scratch_dir_of opts w = some d ∧ ctx2.test_size = test_size ∧
      decode_test_hosts opts w test_size = .ok hosts ∧
      (session_setup_calls opts w test_size cmd_argz broker_path).1
        = (spawn_loop_calls opts w broker_path d cmd_argz hosts test_size.toNat 0 ctx2 []).1 ∧
      ((session_setup_calls opts w test_size cmd_argz broker_path).2.toOption.isSome →
        ∃ ctx3, (spawn_loop_calls opts w broker_path d cmd_argz hosts test_size.toNat 0 ctx2
          []).2 = .ok ctx3)) := by
  unfold session_setup_calls
  dsimp only
  cases hd : scratch_dir_of opts w with
  | none =>
    left
    unfold scratch_dir_of at hd
    cases hsd : opts.scratchdir with
    | some d => rw [hsd] at hd; cases hd
    | none =>
      rw [hsd] at hd
      dsimp only at hd ⊢
      rw [hd]
      exact ⟨_, rfl⟩
  | some d =>
    have hres : (match opts.scratchdir with
         | some d => Except.ok d
         | none =>
           match w.create_scratch_dir with
           | some d => Except.ok d
           | none => Except.error Fatal.mkdtemp) = (Except.ok d : Except Fatal String) := by
      unfold scratch_dir_of at hd
      cases hsd : opts.scratchdir with
      | some d2 => rw [hsd] at hd; cases hd; rfl
      | none =>
        rw [hsd] at hd
        dsimp only at hd ⊢
        rw [hd]
    rw [hres]
    dsimp only
    cases h1 : start_server_initialize w (ctx_init test_size) d with
    | error e => exact Or.inl ⟨e, rfl⟩
    | ok ctx1 =>
      dsimp only
      obtain ⟨_, hctx1⟩ := start_server_initialize_ok _ _ _ _ h1
      cases h2 : pmi_server_initialize opts w ctx1 with
      | error e => exact Or.inl ⟨e, rfl⟩
      | ok ctx2 =>
        dsimp only
        obtain ⟨kvs, hctx2⟩ := pmi_server_initialize_ok _ _ _ _ h2
        have hts : ctx2.test_size = test_size := by rw [hctx2, hctx1]; rfl
        rw [hts]
        cases h3 : decode_test_hosts opts w test_size with
        | error e => exact Or.inl ⟨e, rfl⟩
        | ok hosts =>
          right
          dsimp only
          refine ⟨d, ctx2, hosts, rfl, hts, rfl, ?_, ?_⟩
          · rcases spawn_loop_calls opts w broker_path d cmd_argz hosts test_size.toNat 0
              ctx2 [] with ⟨calls, res⟩
            cases res <;> rfl
          · rcases spawn_loop_calls opts w broker_path d cmd_argz hosts test_size.toNat 0
              ctx2 [] with ⟨calls, res⟩
            cases res with
            | error e =>
              intro h
              simp [Except.toOption] at h
            | ok ctx3 =>
              intro _
              exact ⟨ctx3, rfl⟩

theorem decode_test_hosts_supplied (opts : optparse_t) (w : World) (test_size : Int)
    (str : String) (hl : List String)
    (hopt : opts.test_hosts = some str) (hdec : w.hostlist_decode str = some hl) :
    decode_test_hosts opts w test_size
      = if (hl.length : Int) ≠ test_size then .error Fatal.hostlist_size else .ok (some hl) := by
  unfold decode_test_hosts
  rw [hopt]
  dsimp only
  rw [hdec]

theorem session_setup_decode_error (opts : optparse_t) (w : World) (test_size : Int)
    (cmd_argz : Option (List String)) (broker_path d : String) (e : Fatal)
    (hd : scratch_dir_of opts w = some d)
    (hlen : (d ++ "/start").utf8ByteSize < 1024)
    (husock : w.usock_service_create (d ++ "/start") = true)
    (hpmi : opts.noclique = true ∨ (w.pmi_process_mapping_encode test_size).isSome)
    (hdec : decode_test_hosts opts w test_size = .error e) :
    session_setup opts w test_size cmd_argz broker_path = .error e := by
  have hres : (match opts.scratchdir with
       | some d => Except.ok d
       | none =>
         match w.create_scratch_dir with
         | some d => Except.ok d
         | none => Except.error Fatal.mkdtemp) = (Except.ok d : Except Fatal String) := by
    unfold scratch_dir_of at hd
    cases hsd : opts.scratchdir with
    | some d2 => rw [hsd] at hd; cases hd; rfl
    | none =>
      rw [hsd] at hd
      dsimp only at hd ⊢
      rw [hd]
  have h1 : start_server_initialize w (ctx_init test_size) d
      = .ok { ctx_init test_size with h := some (d ++ "/start") } := by
    unfold start_server_initialize
    dsimp only
    rw [if_neg (not_le.mpr hlen), if_pos husock]
  have h2 : ∃ ctx2, pmi_server_initialize opts w
      { ctx_init test_size with h := some (d ++ "/start") } = .ok ctx2 ∧
      ctx2.test_size = test_size := by
    unfold pmi_server_initialize
    dsimp only
    rcases hpmi with hno | henc
    · rw [hno]
      exact ⟨_, rfl, rfl⟩
    · cases hno : opts.noclique with
      | true => exact ⟨_, rfl, rfl⟩
      | false =>
        obtain ⟨buf, hbuf⟩ := Option.isSome_iff_exists.mp henc
        have hb : w.pmi_process_mapping_encode (ctx_init test_size).test_size = some buf := hbuf
        simp only [Bool.not_false, if_true]
        rw [hb]
        exact ⟨_, rfl, rfl⟩
  obtain ⟨ctx2, h2a, h2b⟩ := h2
  unfold session_setup
  dsimp only
  rw [hres]
  dsimp only
  rw [h1]
  dsimp only
  rw [h2a]
  dsimp only
  rw [h2b, hdec]

/-- C12: when `--test-hosts` is supplied and decodes to a hostlist whose length
differs from the rank count, `start_session` ends with a fatal error and no call to
`client_create` or `flux_local_exec` has been made; the error is the one of the
hostlist size check as soon as the steps before the check (scratch directory,
control service, PMI server) succeed.  When the lengths are equal, every call to
`client_create` for rank `r` passes the `r`-th hostname, and in a session that was
set up each rank `r < test_size` was created with it and carries it as
`FLUX_FAKE_HOSTNAME`. -/
theorem hostlist_length_check (opts : optparse_t) (w : World) (test_size : Int)
    (cmd_argz : Option (List String)) (broker_path : String) (events : List Event)
    (str : String) (hl : List String)
    (hopt : opts.test_hosts = some str) (hdec : w.hostlist_decode str = some hl) :
    ((hl.length : Int) ≠ test_size →
      (session_setup_calls opts w test_size cmd_argz broker_path).1 = [] ∧
      (∃ e, start_session opts w test_size cmd_argz broker_path events = .error e) ∧
      (∀ d, scratch_dir_of opts w = some d → (d ++ "/start").utf8ByteSize < 1024 →
        w.usock_service_create (d ++ "/start") = true →
        (opts.noclique = true ∨ (w.pmi_process_mapping_encode test_size).isSome) →
        start_session opts w test_size cmd_argz broker_path events
          = .error Fatal.hostlist_size)) ∧
    ((hl.length : Int) = test_size →
      (∀ r h, SetupCall.client_create r h ∈
          (session_setup_calls opts w test_size cmd_argz broker_path).1 →
        h = hostlist_nth hl r) ∧
      (∀ s, session_setup opts w test_size cmd_argz broker_path = .ok s →
        ∀ r : Nat, (r : Int) < test_size →
          ∃ host, hl[r]? = some host ∧
            SetupCall.client_create (r : Int) (some host) ∈
              (session_setup_calls opts w test_size cmd_argz broker_path).1 ∧
            (opts.noexec = false →
              ∃ cli, s.ctx.clients[r]? = some cli ∧ cli.rank = (r : Int) ∧
                flux_cmd_getenv cli.cmd "FLUX_FAKE_HOSTNAME" = some host))) := by
  have hdecode := decode_test_hosts_supplied opts w test_size str hl hopt hdec
  have hsnd := session_setup_calls_snd opts w test_size cmd_argz broker_path
  constructor
  · intro hne
    rw [if_pos hne] at hdecode
    have herr : ∃ e, session_setup_calls opts w test_size cmd_argz broker_path
        = ([], .error e) := by
      rcases session_setup_calls_stage opts w test_size cmd_argz broker_path with h | h
      · exact h
      · obtain ⟨_, _, hosts, _, _, hok, _⟩ := h
        rw [hdecode] at hok
        cases hok
    obtain ⟨e, he⟩ := herr
    refine ⟨by rw [he], ⟨e, ?_⟩, ?_⟩
    · unfold start_session
      rw [← hsnd, he]
    · intro d hd hlen husock hpmi
      unfold start_session
      rw [session_setup_decode_error opts w test_size cmd_argz broker_path d _ hd hlen husock
        hpmi hdecode]
  · intro heq
    rw [if_neg (not_not.mpr heq)] at hdecode
    rcases session_setup_calls_stage opts w test_size cmd_argz broker_path with h | h
    · obtain ⟨e, he⟩ := h
      refine ⟨?_, ?_⟩
      · intro r h hmem
        rw [he] at hmem
        cases hmem
      · intro s hs
        rw [← hsnd, he] at hs
        cases hs
    · obtain ⟨d, ctx2, hosts, hd, hts, hok, hcalls, hsucc⟩ := h
      rw [hdecode] at hok
      cases hok
      refine ⟨?_, ?_⟩
      · intro r h hmem
        rw [hcalls] at hmem
        rcases spawn_loop_calls_hosts _ _ _ _ _ _ _ _ _ _ _ _ hmem with h1 | h1
        · cases h1
        · exact h1
      · intro s hs r hr
        have hrn : r < test_size.toNat := by omega
        have hrl : r < hl.length := by omega
        obtain ⟨ctx3, hctx3⟩ := hsucc (by rw [hsnd, hs]; rfl)
        have hall := (spawn_loop_calls_all _ _ _ _ _ _ _ _ _ _ _ hctx3).2 r hrn
        rw [← hcalls] at hall
        have hha : hostname_arg (some hl) (r : Int) = some hl[r] := by
          unfold hostname_arg hostlist_nth
          simp [List.getElem?_eq_getElem hrl]
        simp only [zero_add] at hall
        rw [hha] at hall
        refine ⟨hl[r], List.getElem?_eq_getElem hrl, hall, ?_⟩
        intro hexec
        obtain ⟨d2, hosts2, hd2, hdec2, _, _, _, _, _, _, hcl, _⟩ :=
          session_setup_ok _ _ _ _ _ _ hs
        rw [hdecode] at hdec2
        cases hdec2
        refine ⟨spawned_client opts w test_size broker_path d2 cmd_argz (some hl) (r : Int),
          ?_, rfl, ?_⟩
        · rw [hcl, hexec]
          simp only [Bool.false_eq_true, if_false, List.getElem?_map]
          rw [List.getElem?_range hrn]
          rfl
        · have e4 := (client_create_getenv opts w.environ test_size broker_path d2
            (r : Int) cmd_argz (hostname_arg (some hl) (r : Int))).2.2.2
          show flux_cmd_getenv (client_create opts w.environ test_size broker_path d2
            (r : Int) cmd_argz (hostname_arg (some hl) (r : Int))).cmd "FLUX_FAKE_HOSTNAME" = _
          rw [e4, hha]

/-- C12, at concrete sessions: a hostlist of three entries with two brokers is
rejected before any call, and with three brokers rank 2 is created with `n2`. -/
theorem hostlist_length_check_witness :
    (sample_mismatch_opts.test_hosts = some "n[0-2]" ∧
      sample_world.hostlist_decode "n[0-2]" = some ["n0", "n1", "n2"]) ∧
    ((session_setup_calls sample_mismatch_opts sample_world 2 none "flux-broker").1 = [] ∧
      start_session sample_mismatch_opts sample_world 2 none "flux-broker" []
        = .error Fatal.hostlist_size) ∧
    (∃ host, ["n0", "n1", "n2"][2]? = some host ∧
      SetupCall.client_create ((2 : Nat) : Int) (some host) ∈
        (session_setup_calls sample_hosts_opts sample_world 3 (some ["sleep", "1"])
          "flux-broker").1 ∧
      (sample_hosts_opts.noexec = false →
        ∃ cli, sample_hosts_session.ctx.clients[2]? = some cli ∧ cli.rank = ((2 : Nat) : Int) ∧
          flux_cmd_getenv cli.cmd "FLUX_FAKE_HOSTNAME" = some host)) := by
  have h2 := hostlist_length_check sample_mismatch_opts sample_world 2 none "flux-broker" []
    "n[0-2]" ["n0", "n1", "n2"] rfl rfl
  have h3 := hostlist_length_check sample_hosts_opts sample_world 3 (some ["sleep", "1"])
    "flux-broker" [] "n[0-2]" ["n0", "n1", "n2"] rfl rfl
  have hmis := h2.1 (by decide)
  exact ⟨⟨rfl, rfl⟩,
    ⟨hmis.1, hmis.2.2 "/tmp/flux-a" rfl (by decide) rfl (Or.inl rfl)⟩,
    (h3.2 (by decide)).2 sample_hosts_session rfl 2 (by decide)⟩

/-! ## The control service -/

theorem status_loop_eq (alloc : JsonAlloc) (hent : ∀ i, alloc.entry_ok i = true)
    (l : List client) (i : Nat) (procs : List ProcRecord) :
    status_loop alloc l i procs
      = some (procs ++ l.map (fun cli => { pid := flux_subprocess_pid cli.p })) := by
  induction l generalizing i procs with
  | nil => simp [status_loop]
  | cons cli rest ih =>
    unfold status_loop
    rw [if_pos (hent i), ih]
    simp

/-- C13: when its allocations succeed, `status_cb` responds with the payload
`procs` holding one `{pid}` record per client of the live-set, in live-set order
and nothing else: as many records as live clients, the `i`-th record carrying the
pid of the `i`-th live client, the empty list for an empty live-set.  In the sample
session of five brokers the response has 2 records (pids 101 and 103) once ranks 0,
2 and 4 have completed, and none once all have. -/
theorem status_cb_records (alloc : JsonAlloc) (ctx : Ctx)
    (harr : alloc.array_ok = true) (hent : ∀ i, alloc.entry_ok i = true) :
    status_cb alloc ctx
      = .procs (ctx.clients.map (fun cli => { pid := flux_subprocess_pid cli.p })) ∧
    (∃ records, status_cb alloc ctx = .procs records ∧
      records.length = ctx.clients.length ∧
      (∀ (i : Nat) (cli : client), ctx.clients[i]? = some cli →
        records[i]? = some { pid := flux_subprocess_pid cli.p }) ∧
      (∀ (i : Nat) (cli : client) (p : flux_subprocess_t), ctx.clients[i]? = some cli →
        cli.p = some p → records[i]? = some { pid := p.pid })) ∧
    (ctx.clients = [] → status_cb alloc ctx = .procs []) ∧
    status_cb alloc (flux_reactor_run (sample_session 5) sample_three_done_run).ctx
      = .procs [{ pid := 101 }, { pid := 103 }] ∧
    status_cb alloc (flux_reactor_run (sample_session 5) sample_all_done_run).ctx
      = .procs [] := by
  have hgen : ∀ c : Ctx, status_cb alloc c
      = .procs (c.clients.map (fun cli => { pid := flux_subprocess_pid cli.p })) := by
    intro c
    unfold status_cb
    rw [if_pos harr, status_loop_eq alloc hent]
    rfl
  refine ⟨hgen ctx, ⟨_, hgen ctx, by simp, ?_, ?_⟩, ?_, ?_, ?_⟩
  · intro i cli hi
    rw [List.getElem?_map, hi]
    rfl
  · intro i cli p hi hp
    rw [List.getElem?_map, hi]
    simp [hp, flux_subprocess_pid]
  · intro hnil
    rw [hgen, hnil]
    rfl
  · rw [hgen]
    rfl
  · rw [hgen]
    rfl

/-- C13, with allocations that succeed, on the sample session of five brokers. -/
theorem status_cb_records_witness :
    (sample_alloc.array_ok = true ∧ ∀ i, sample_alloc.entry_ok i = true) ∧
    status_cb sample_alloc (sample_session 5).ctx
      = .procs [{ pid := 100 }, { pid := 101 }, { pid := 102 }, { pid := 103 },
          { pid := 104 }] ∧
    status_cb sample_alloc (flux_reactor_run (sample_session 5) sample_three_done_run).ctx
      = .procs [{ pid := 101 }, { pid := 103 }] := by
  have h := status_cb_records sample_alloc (sample_session 5).ctx rfl (fun _ => rfl)
  exact ⟨⟨rfl, fun _ => rfl⟩, h.1, h.2.2.2.1⟩

/-! ## The bootstrap channel -/

theorem utf8ByteSize_go_eq_zero (l : List Char) : String.utf8ByteSize.go l = 0 ↔ l = [] := by
  cases l with
  | nil => simp [String.utf8ByteSize.go]
  | cons c cs =>
    have := c.utf8Size_pos
    simp only [String.utf8ByteSize.go, reduceCtorEq, iff_false]
    intro h
    omega

theorem utf8ByteSize_eq_zero (line : String) : line.utf8ByteSize = 0 ↔ line = "" := by
  cases line with
  | mk l =>
    show String.utf8ByteSize.go l = 0 ↔ _
    rw [utf8ByteSize_go_eq_zero]
    constructor
    · intro h
      rw [h]
    · intro h
      exact congrArg String.data h

/-- C14: for a line read from the bootstrap channel `PMI_FD` of a client,
`channel_cb` makes no call when the line is empty; otherwise it forwards that line
once to the protocol server with the client as token and the client's rank as
identity, and then closes the channel when the server's result is 1, makes no
further call when it is 0 (or any other non-negative value), and exits fatally when
it is negative; so the channel is closed exactly when the result is 1. -/
theorem channel_cb_dispatch (request : String → client → Int → Int) (cli : client)
    (line : String) :
    (line = "" → channel_cb request cli "PMI_FD" (some line) = ([], .ok ())) ∧
    (line ≠ "" →
      (request line cli cli.rank = 1 →
        channel_cb request cli "PMI_FD" (some line)
          = ([ChannelCall.pmi_simple_server_request line cli cli.rank,
              ChannelCall.flux_subprocess_close cli "PMI_FD"], .ok ())) ∧
      (request line cli cli.rank = 0 →
        channel_cb request cli "PMI_FD" (some line)
          = ([ChannelCall.pmi_simple_server_request line cli cli.rank], .ok ())) ∧
      (request line cli cli.rank < 0 →
        channel_cb request cli "PMI_FD" (some line)
          = ([ChannelCall.pmi_simple_server_request line cli cli.rank],
              .error Fatal.pmi_simple_server_request)) ∧
      (∃ rest, (channel_cb request cli "PMI_FD" (some line)).1
          = ChannelCall.pmi_simple_server_request line cli cli.rank :: rest ∧
        ∀ l t r, ChannelCall.pmi_simple_server_request l t r ∉ rest) ∧
      (ChannelCall.flux_subprocess_close cli "PMI_FD"
          ∈ (channel_cb request cli "PMI_FD" (some line)).1
        ↔ request line cli cli.rank = 1) ∧
      ((∃ e, (channel_cb request cli "PMI_FD" (some line)).2 = .error e)
        ↔ request line cli cli.rank < 0)) := by
  constructor
  · intro hempty
    have hzero : line.utf8ByteSize = 0 := (utf8ByteSize_eq_zero line).mpr hempty
    unfold channel_cb
    simp only [ne_eq, not_true_eq_false, if_false]
    rw [if_neg (not_not.mpr hzero)]
  · intro hne
    have hlen : line.utf8ByteSize ≠ 0 := fun h => hne ((utf8ByteSize_eq_zero line).mp h)
    have hunf : channel_cb request cli "PMI_FD" (some line)
        = (if request line cli cli.rank < 0 then
            ([ChannelCall.pmi_simple_server_request line cli cli.rank],
              .error Fatal.pmi_simple_server_request)
          else if request line cli cli.rank = 1 then
            ([ChannelCall.pmi_simple_server_request line cli cli.rank,
              ChannelCall.flux_subprocess_close cli "PMI_FD"], .ok ())
          else ([ChannelCall.pmi_simple_server_request line cli cli.rank], .ok ())) := by
      unfold channel_cb
      simp only [ne_eq, not_true_eq_false, if_false]
      rw [if_pos hlen]
    rw [hunf]
    refine ⟨?_, ?_, ?_, ?_, ?_, ?_⟩
    · intro h1
      rw [if_neg (by omega), if_pos h1]
    · intro h0
      rw [if_neg (by omega), if_neg (by omega)]
    · intro hneg
      rw [if_pos hneg]
    · by_cases hneg : request line cli cli.rank < 0
      · rw [if_pos hneg]
        exact ⟨[], rfl, by simp⟩
      · rw [if_neg hneg]
        by_cases h1 : request line cli cli.rank = 1
        · rw [if_pos h1]
          exact ⟨_, rfl, by simp⟩
        · rw [if_neg h1]
          exact ⟨[], rfl, by simp⟩
    · by_cases hneg : request line cli cli.rank < 0
      · rw [if_pos hneg]
        simp
        omega
      · rw [if_neg hneg]
        by_cases h1 : request line cli cli.rank = 1
        · rw [if_pos h1]
          simp [h1]
        · rw [if_neg h1]
          simp [h1]
    · by_cases hneg : request line cli cli.rank < 0
      · rw [if_pos hneg]
        simp [hneg]
      · rw [if_neg hneg]
        by_cases h1 : request line cli cli.rank = 1
        · rw [if_pos h1]
          simp [hneg]
        · rw [if_neg h1]
          simp [hneg]

/-- C14, at concrete lines of rank 1 of the sample session of two brokers: an
empty line, a line the server answers with 1, with 0 and with -1. -/
theorem channel_cb_dispatch_witness :
    channel_cb sample_request (sample_client 2 1) "PMI_FD" (some "") = ([], .ok ()) ∧
    ("cmd=finalize\n" ≠ "" ∧ sample_request "cmd=finalize\n" (sample_client 2 1) 1 = 1) ∧
    channel_cb sample_request (sample_client 2 1) "PMI_FD" (some "cmd=finalize\n")
      = ([ChannelCall.pmi_simple_server_request "cmd=finalize\n" (sample_client 2 1) 1,
          ChannelCall.flux_subprocess_close (sample_client 2 1) "PMI_FD"], .ok ()) ∧
    channel_cb sample_request (sample_client 2 1) "PMI_FD" (some "cmd=get kvsname=k key=a\n")
      = ([ChannelCall.pmi_simple_server_request "cmd=get kvsname=k key=a\n"
          (sample_client 2 1) 1], .ok ()) ∧
    channel_cb sample_request (sample_client 2 1) "PMI_FD" (some "bad\n")
      = ([ChannelCall.pmi_simple_server_request "bad\n" (sample_client 2 1) 1],
          .error Fatal.pmi_simple_server_request) :=
  ⟨(channel_cb_dispatch sample_request (sample_client 2 1) "").1 rfl,
    ⟨by decide, rfl⟩,
    ((channel_cb_dispatch sample_request (sample_client 2 1) "cmd=finalize\n").2
      (by decide)).1 rfl,
    ((channel_cb_dispatch sample_request (sample_client 2 1) "cmd=get kvsname=k key=a\n").2
      (by decide)).2.1 rfl,
    ((channel_cb_dispatch sample_request (sample_client 2 1) "bad\n").2
      (by decide)).2.2.1 (by decide)⟩

/-! ## Invariants of the reactor run -/

theorem dispatch_count_length (s : Session) (e : Event)
    (hinv : s.ctx.count = (s.ctx.clients.length : Int))
    (hlive : ∀ cli, departing_client e = some cli → cli ∈ s.ctx.clients) :
    (dispatch s e).ctx.count = ((dispatch s e).ctx.clients.length : Int) := by
  have hdep : ∀ (c : Ctx) (cli : client), c.count = (c.clients.length : Int) →
      cli ∈ c.clients → (departure c cli).count = ((departure c cli).clients.length : Int) := by
    intro c cli hc hmem
    have hpos : 0 < c.clients.length := List.length_pos_of_mem hmem
    rw [departure_count, departure_clients, List.length_erase_of_mem hmem, hc]
    omega
  cases e with
  | completion cli exit_code signaled =>
    have hmem := hlive cli rfl
    show (completion_cb s.ctx cli exit_code signaled).count
      = ((completion_cb s.ctx cli exit_code signaled).clients.length : Int)
    have hpos : 0 < s.ctx.clients.length := List.length_pos_of_mem hmem
    rw [completion_cb_count, completion_cb_clients, List.length_erase_of_mem hmem, hinv]
    omega
  | state_change cli state =>
    show (state_cb s.ctx cli state).count = ((state_cb s.ctx cli state).clients.length : Int)
    unfold state_cb
    split
    · rename_i hst
      exact hdep s.ctx cli hinv (hlive cli (by simp [departing_client, hst]))
    · exact hinv
  | timer_expired =>
    unfold dispatch
    dsimp only
    split
    · exact hinv
    · exact hinv

theorem run_count_length (s : Session) (events : List Event)
    (hinv : s.ctx.count = (s.ctx.clients.length : Int))
    (hlive : LiveDeliveries s events) (k : Nat) :
    (flux_reactor_run s (events.take k)).ctx.count
      = ((flux_reactor_run s (events.take k)).ctx.clients.length : Int) := by
  induction events generalizing s k with
  | nil =>
    rw [List.take_nil]
    exact hinv
  | cons e rest ih =>
    cases k with
    | zero => exact hinv
    | succ j =>
      rw [List.take_succ_cons, flux_reactor_run_cons]
      exact ih (dispatch s e) (dispatch_count_length s e hinv hlive.1) hlive.2 j

/-- C15: after the spawn loop of a session that was set up, and after every
callback the reactor then delivers (completions, state changes to any state, kill
timer expiries), `ctx.count` equals the number of clients in the live-set, provided
each completion and each `FAILED` state change is delivered for a client that is in
the live-set at that point; so the count is never negative and is 0 exactly when
the live-set is empty. -/
theorem live_count_invariant (opts : optparse_t) (w : World) (test_size : Int)
    (cmd_argz : Option (List String)) (broker_path : String) (s : Session)
    (events : List Event) (k : Nat)
    (hsetup : session_setup opts w test_size cmd_argz broker_path = .ok s)
    (hlive : LiveDeliveries s events) :
    s.ctx.count = (s.ctx.clients.length : Int) ∧
    (flux_reactor_run s (events.take k)).ctx.count
      = ((flux_reactor_run s (events.take k)).ctx.clients.length : Int) ∧
    0 ≤ (flux_reactor_run s (events.take k)).ctx.count ∧
    ((flux_reactor_run s (events.take k)).ctx.count = 0 ↔
      (flux_reactor_run s (events.take k)).ctx.clients = []) ∧
    (flux_reactor_run s events).ctx.count
      = ((flux_reactor_run s events).ctx.clients.length : Int) ∧
    0 ≤ (flux_reactor_run s events).ctx.count ∧
    ((flux_reactor_run s events).ctx.count = 0 ↔ (flux_reactor_run s events).ctx.clients = []) := by
  obtain ⟨_, _, _, _, _, _, _, _, _, _, _, hcount, _⟩ := session_setup_ok _ _ _ _ _ _ hsetup
  have hk := run_count_length s events hcount hlive k
  have hall := run_count_length s events hcount hlive events.length
  rw [List.take_length] at hall
  have key : ∀ c : Ctx, c.count = (c.clients.length : Int) →
      0 ≤ c.count ∧ (c.count = 0 ↔ c.clients = []) := by
    intro c hc
    refine ⟨by omega, ?_⟩
    rw [hc]
    constructor
    · intro h0
      exact List.length_eq_zero.mp (by omega)
    · intro hnil
      rw [hnil]
      rfl
  exact ⟨hcount, hk, (key _ hk).1, (key _ hk).2, hall, (key _ hall).1, (key _ hall).2⟩

/-- C15, at a concrete run of the sample session of three brokers mixing every kind
of callback. -/
theorem live_count_invariant_witness :
    (session_setup sample_opts sample_world 3 none "flux-broker" = .ok (sample_session 3) ∧
      LiveDeliveries (sample_session 3) sample_mixed_run) ∧
    (flux_reactor_run (sample_session 3) (sample_mixed_run.take 4)).ctx.count
      = ((flux_reactor_run (sample_session 3) (sample_mixed_run.take 4)).ctx.clients.length : Int) ∧
    (flux_reactor_run (sample_session 3) (sample_mixed_run.take 4)).ctx.count = 1 ∧
    (flux_reactor_run (sample_session 3) sample_mixed_run).ctx.count = 0 ∧
    (flux_reactor_run (sample_session 3) sample_mixed_run).ctx.clients = [] := by
  have hlive : LiveDeliveries (sample_session 3) sample_mixed_run := by
    simp only [sample_mixed_run, LiveDeliveries, and_true]
    decide
  have h := live_count_invariant sample_opts sample_world 3 none "flux-broker"
    (sample_session 3) sample_mixed_run 4 rfl hlive
  exact ⟨⟨rfl, hlive⟩, h.2.1, rfl, rfl, h.2.2.2.2.2.2.mp rfl⟩

/-- C16: in a session that was set up the aggregate exit code starts at 0, is never
negative, and is never lowered: every callback (completion, state change, kill
timer expiry) leaves `ctx.exit_rc` at least as large as before, and so does every
further stretch of the run.  A completion whose exit code query and signal query are
both negative computes the negative signal query as status (-1 for -1) and leaves
the aggregate unchanged. -/
theorem exit_rc_monotone (opts : optparse_t) (w : World) (test_size : Int)
    (cmd_argz : Option (List String)) (broker_path : String) (s : Session)
    (pre post : List Event) (e : Event) (cli : client) (exit_code signaled : Int)
    (hsetup : session_setup opts w test_size cmd_argz broker_path = .ok s)
    (hexit : exit_code < 0) (hsig : signaled < 0) :
    s.ctx.exit_rc = 0 ∧
    0 ≤ (flux_reactor_run s pre).ctx.exit_rc ∧
    (flux_reactor_run s pre).ctx.exit_rc ≤ (dispatch (flux_reactor_run s pre) e).ctx.exit_rc ∧
    (flux_reactor_run s pre).ctx.exit_rc ≤ (flux_reactor_run s (pre ++ post)).ctx.exit_rc ∧
    completion_rc exit_code signaled = signaled ∧
    completion_rc (-1) (-1) = -1 ∧
    (dispatch (flux_reactor_run s pre) (Event.completion cli exit_code signaled)).ctx.exit_rc
      = (flux_reactor_run s pre).ctx.exit_rc := by
  obtain ⟨_, _, _, _, _, _, _, hrc, _⟩ := session_setup_ok _ _ _ _ _ _ hsetup
  have hnonneg : 0 ≤ (flux_reactor_run s pre).ctx.exit_rc := by
    rw [flux_reactor_run_exit_rc, hrc]
    exact foldl_max_ge_init _ 0
  have hstatus : completion_rc exit_code signaled = signaled := by
    unfold completion_rc
    rw [if_pos hexit, if_neg (by omega)]
  refine ⟨hrc, hnonneg, ?_, ?_, hstatus, rfl, ?_⟩
  · rw [dispatch_exit_rc]
    exact foldl_max_ge_init _ _
  · rw [flux_reactor_run_append, flux_reactor_run_exit_rc (flux_reactor_run s pre) post]
    exact foldl_max_ge_init _ _
  · show (completion_cb (flux_reactor_run s pre).ctx cli exit_code signaled).exit_rc = _
    rw [completion_cb_exit_rc, hstatus]
    exact max_eq_left (by omega)

/-- C16, at a concrete run of the sample session of three brokers: after rank 1 has
exited with code 3, a completion with both queries -1 leaves the aggregate at 3. -/
theorem exit_rc_monotone_witness :
    (session_setup sample_opts sample_world 3 none "flux-broker" = .ok (sample_session 3) ∧
      (-1 : Int) < 0) ∧
    (flux_reactor_run (sample_session 3) (sample_mixed_run.take 2)).ctx.exit_rc = 3 ∧
    (dispatch (flux_reactor_run (sample_session 3) (sample_mixed_run.take 2))
      (Event.completion (sample_client 3 2) (-1) (-1))).ctx.exit_rc
      = (flux_reactor_run (sample_session 3) (sample_mixed_run.take 2)).ctx.exit_rc ∧
    (flux_reactor_run (sample_session 3) (sample_mixed_run.take 2)).ctx.exit_rc
      ≤ (flux_reactor_run (sample_session 3)
          (sample_mixed_run.take 2 ++ sample_mixed_run.drop 2)).ctx.exit_rc ∧
    (flux_reactor_run (sample_session 3) sample_mixed_run).ctx.exit_rc = 137 := by
  have h := exit_rc_monotone sample_opts sample_world 3 none "flux-broker" (sample_session 3)
    (sample_mixed_run.take 2) (sample_mixed_run.drop 2) Event.timer_expired
    (sample_client 3 2) (-1) (-1) rfl (by decide) (by decide)
  exact ⟨⟨rfl, by decide⟩, rfl, h.2.2.2.2.2.2, h.2.2.2.1, rfl⟩

end FluxStart
